import Mathlib

/-!
Verification development for the whisky recommendation engine
(`recommendation_engine/` and `data_integration/` of the `recomend` repository).

The Python code is shallowly embedded:
* pandas DataFrames become ordered association lists from column names to
  lists of cells (`DF`); a cell is a number, a string, a flavor mapping
  (Python `dict`, kept as an association list in insertion order) or a
  null (`None`/`NaN`);
* Python floats are modelled as exact rationals (`ℚ`);
* a pandas column exists for a field exactly when some record of the batch
  carries a non-null value for it;
* raising an exception becomes returning `Except.error`;
* the two third-party floating point computations of
  `_calculate_recommendations` (`DataFrame.mean` plus sklearn
  `cosine_similarity`) are passed in as an opaque function argument
  `cosSim`; every theorem below holds for all values of that argument;
* Python `set` iteration order (`list(all_flavors)` in
  `_process_flavor_profiles`) is implementation defined; it is modelled as
  first-insertion order.  The source contains no `sorted(...)` call there,
  so no modelling choice can make that order the sorted one;
* unstable library sorts (`DataFrame.sort_values`, `numpy.argsort`) are
  modelled by a stable insertion sort; no statement below depends on the
  order of ties.
-/

unseal Rat.add Rat.sub Rat.mul Rat.inv

instance {α β : Type} [DecidableEq α] [DecidableEq β] : DecidableEq (Except α β) :=
  fun a b =>
    match a, b with
    | .ok x, .ok y =>
        if h : x = y then isTrue (by rw [h])
        else isFalse (by intro he; cases he; exact h rfl)
    | .error x, .error y =>
        if h : x = y then isTrue (by rw [h])
        else isFalse (by intro he; cases he; exact h rfl)
    | .ok _, .error _ => isFalse (by intro he; cases he)
    | .error _, .ok _ => isFalse (by intro he; cases he)

/-- One value of a pandas cell: a float, a string, a flavor `dict`
(association list in insertion order) or a null (`None` / `NaN`). -/
inductive Cell where
  | num : ℚ → Cell
  | str : String → Cell
  | dict : List (String × ℚ) → Cell
  | null : Cell
deriving DecidableEq, Repr

/-- A DataFrame: ordered list of named columns. -/
abbrev DF : Type := List (String × List Cell)

/-- Look a column up by name (first occurrence, like pandas label lookup). -/
def DF.getCol : DF → String → Option (List Cell)
  | [], _ => none
  | p :: t, n => if p.1 == n then some p.2 else DF.getCol t n

/-- `n in df.columns`. -/
def DF.hasCol (df : DF) (n : String) : Bool :=
  (df.getCol n).isSome

/-- Overwrite the values of an existing column, keeping its position
(`df[name] = values` when the column exists). -/
def DF.setCol (df : DF) (n : String) (vals : List Cell) : DF :=
  df.map (fun p => if p.1 == n then (n, vals) else p)

/-- `df[name] = values`: overwrite when the column exists, otherwise append
a new column at the end. -/
def DF.assign (df : DF) (n : String) (vals : List Cell) : DF :=
  if df.hasCol n then df.setCol n vals else df ++ [(n, vals)]

/-- `df.drop(columns=cs)`. -/
def DF.dropCols (df : DF) (cs : List String) : DF :=
  df.filter (fun p => !(decide (p.1 ∈ cs)))

/-- Column names, in order. -/
def DF.columnNames (df : DF) : List String :=
  df.map (fun p => p.1)

/-- `df[cols]`: select columns by name in the given order. -/
def DF.selectCols (df : DF) (cols : List String) : DF :=
  cols.filterMap (fun c => (df.getCol c).map (fun v => (c, v)))

-- ### Basic DataFrame lemmas

theorem DF.getCol_append (d₁ d₂ : DF) (n : String) :
    DF.getCol (d₁ ++ d₂) n = (DF.getCol d₁ n).or (DF.getCol d₂ n) := by
  induction d₁ with
  | nil => simp [DF.getCol]
  | cons p t ih =>
    by_cases h : p.1 == n
    · simp [DF.getCol, h]
    · simp [DF.getCol, h, ih]

theorem DF.getCol_append_right_none (d₁ d₂ : DF) (n : String)
    (h : DF.getCol d₂ n = none) :
    DF.getCol (d₁ ++ d₂) n = DF.getCol d₁ n := by
  rw [DF.getCol_append, h]
  cases DF.getCol d₁ n <;> rfl

theorem DF.getCol_setCol_ne (df : DF) (m n : String) (vals : List Cell)
    (h : m ≠ n) : DF.getCol (df.setCol m vals) n = DF.getCol df n := by
  induction df with
  | nil => rfl
  | cons p t ih =>
    by_cases hp : p.1 == m
    · have hp1 : p.1 = m := by simpa using hp
      have hmn : (m == n) = false := by simpa using h
      have hpn : (p.1 == n) = false := by rw [hp1]; exact hmn
      simp [DF.setCol, DF.getCol, hp, hmn, hpn] at *
      exact ih
    · by_cases hn : p.1 == n
      · simp [DF.setCol, DF.getCol, hp, hn]
      · simp [DF.setCol, DF.getCol, hp, hn] at *
        exact ih

theorem DF.getCol_setCol_self (df : DF) (n : String) (vals cs : List Cell)
    (h : DF.getCol df n = some cs) :
    DF.getCol (df.setCol n vals) n = some vals := by
  induction df with
  | nil => simp [DF.getCol] at h
  | cons p t ih =>
    by_cases hp : p.1 == n
    · simp [DF.setCol, DF.getCol, hp]
    · simp [DF.setCol, DF.getCol, hp] at *
      exact ih h

theorem DF.getCol_dropCols (df : DF) (cs : List String) (n : String)
    (h : n ∉ cs) : DF.getCol (df.dropCols cs) n = DF.getCol df n := by
  induction df with
  | nil => rfl
  | cons p t ih =>
    by_cases hmem : p.1 ∈ cs
    · have hpn : (p.1 == n) = false := by
        have : p.1 ≠ n := fun he => h (he ▸ hmem)
        simpa using this
      simp only [DF.dropCols, List.filter_cons, hmem]
      simp only [DF.getCol, hpn, if_false]
      simpa [DF.dropCols] using ih
    · simp only [DF.dropCols, List.filter_cons, hmem]
      simp only [DF.getCol]
      by_cases hpn : p.1 == n
      · simp [hpn]
      · simp only [hpn, if_false]
        simpa [DF.dropCols] using ih

theorem DF.getCol_assign_ne (df : DF) (m n : String) (vals : List Cell)
    (h : m ≠ n) : DF.getCol (df.assign m vals) n = DF.getCol df n := by
  unfold DF.assign
  by_cases hc : df.hasCol m
  · simp [hc, DF.getCol_setCol_ne df m n vals h]
  · have hnone : DF.getCol [(m, vals)] n = none := by
      have : (m == n) = false := by simpa using h
      simp [DF.getCol, this]
    simp only [hc, Bool.false_eq_true, if_false]
    exact DF.getCol_append_right_none _ _ _ hnone

theorem DF.getCol_none_of_not_mem (df : DF) (n : String)
    (h : n ∉ df.columnNames) : DF.getCol df n = none := by
  induction df with
  | nil => rfl
  | cons p t ih =>
    simp [DF.columnNames] at h
    have hpn : (p.1 == n) = false := by simpa using (Ne.symm h.1)
    simp [DF.getCol, hpn]
    exact ih (by simp [DF.columnNames, h.2])

theorem DF.columnNames_setCol (df : DF) (n : String) (vals : List Cell) :
    DF.columnNames (df.setCol n vals) = DF.columnNames df := by
  induction df with
  | nil => rfl
  | cons p t ih =>
    simp only [DF.setCol, List.map_cons, DF.columnNames] at ih ⊢
    by_cases hp : p.1 == n
    · have hp1 : p.1 = n := by simpa using hp
      rw [if_pos hp, hp1]
      exact congrArg (List.cons n) ih
    · rw [if_neg hp]
      exact congrArg (List.cons p.1) ih

theorem DF.columnNames_append (d₁ d₂ : DF) :
    DF.columnNames (d₁ ++ d₂) = DF.columnNames d₁ ++ DF.columnNames d₂ := by
  simp [DF.columnNames]

theorem DF.hasCol_iff_mem (df : DF) (n : String) :
    df.hasCol n = true ↔ n ∈ df.columnNames := by
  induction df with
  | nil => simp [DF.hasCol, DF.getCol, DF.columnNames]
  | cons p t ih =>
    by_cases hp : p.1 == n
    · have hp1 : p.1 = n := by simpa using hp
      simp [DF.hasCol, DF.getCol, DF.columnNames, hp, hp1]
    · have hp1 : p.1 ≠ n := by simpa using hp
      simp [DF.hasCol, DF.getCol, DF.columnNames, hp] at *
      simp [Ne.symm hp1]
      exact ih

theorem DF.columnNames_assign_fresh (df : DF) (n : String) (vals : List Cell)
    (h : n ∉ df.columnNames) :
    DF.columnNames (df.assign n vals) = DF.columnNames df ++ [n] := by
  have hc : df.hasCol n = false := by
    cases hh : df.hasCol n
    · rfl
    · exact absurd ((DF.hasCol_iff_mem df n).mp hh) h
  simp [DF.assign, hc, DF.columnNames_append, DF.columnNames]

theorem DF.getCol_selectCols (df : DF) (cols : List String) (n : String) :
    DF.getCol (df.selectCols cols) n =
      if n ∈ cols then DF.getCol df n else none := by
  induction cols with
  | nil => simp [DF.selectCols, DF.getCol]
  | cons c t ih =>
    by_cases hc : n = c
    · subst hc
      cases hg : DF.getCol df n with
      | none =>
        simp only [DF.selectCols, List.filterMap_cons, hg, Option.map_none']
        rw [show (List.filterMap (fun c => (DF.getCol df c).map
          (fun v => (c, v))) t) = DF.selectCols df t from rfl, ih]
        simp [hg]
      | some v =>
        simp [DF.selectCols, List.filterMap_cons, hg, DF.getCol]
    · have hcn : (c == n) = false := by simpa using fun he => hc he.symm
      cases hg : DF.getCol df c with
      | none =>
        simp only [DF.selectCols, List.filterMap_cons, hg, Option.map_none']
        rw [show (List.filterMap (fun c => (DF.getCol df c).map
          (fun v => (c, v))) t) = DF.selectCols df t from rfl, ih]
        simp [List.mem_cons, hc]
      | some v =>
        simp only [DF.selectCols, List.filterMap_cons, hg, Option.map_some']
        simp only [DF.getCol, hcn, if_false]
        rw [show (List.filterMap (fun c => (DF.getCol df c).map
          (fun v => (c, v))) t) = DF.selectCols df t from rfl, ih]
        simp [List.mem_cons, hc]

-- ### Python value helpers

/-- `str(x)` on a possibly-`None` string value (a missing string in a pandas
object column is `None`; `str(None)` is `"None"`). -/
def pyStr : Option String → String
  | some s => s
  | none => "None"

/-- `int(x)` on a float: truncation toward zero. -/
def pyInt (q : ℚ) : ℤ := q.num / (q.den : ℤ)

/-- Stable insertion of `x` into `l` with respect to `le`. -/
def insertSorted (le : α → α → Bool) (x : α) : List α → List α
  | [] => [x]
  | y :: ys => if le x y then x :: y :: ys else y :: insertSorted le x ys

/-- Stable sort under `le` (model of the library sorts; ties keep their
original relative order, which no statement below depends on). -/
def sortBy (le : α → α → Bool) (l : List α) : List α :=
  l.foldr (insertSorted le) []

/-- Ascending sort of a numeric column. -/
def sortAsc (l : List ℚ) : List ℚ :=
  sortBy (fun a b => decide (a ≤ b)) l

/-- `Series.min` of a numeric column. -/
def listMin : List ℚ → Option ℚ
  | [] => none
  | x :: xs => some (xs.foldl min x)

/-- `Series.max` of a numeric column. -/
def listMax : List ℚ → Option ℚ
  | [] => none
  | x :: xs => some (xs.foldl max x)

/-- sklearn `MinMaxScaler().fit_transform` on one column:
`(x - min) / (max - min)`, where a zero range is replaced by 1
(`_handle_zeros_in_scale`), so a constant column maps to all zeros. -/
def minmaxScale (l : List ℚ) : List ℚ :=
  match listMin l, listMax l with
  | some mn, some mx =>
      l.map (fun x => (x - mn) / (if mx - mn = 0 then 1 else mx - mn))
  | _, _ => l

/-- pandas `Series.median` over the non-null values (mean of the two middle
elements for an even count). -/
def median (l : List ℚ) : ℚ :=
  let s := sortAsc l
  let n := s.length
  if n % 2 = 1 then s.getD (n / 2) 0
  else (s.getD (n / 2 - 1) 0 + s.getD (n / 2) 0) / 2

-- ### Bottle records

/-- A bottle record as passed to the Feature Processor: every field is
optional (`none` models a missing key or a null value). -/
structure RawBottle where
  bottle_id : Option String := none
  name : Option String := none
  brand : Option String := none
  region : Option String := none
  style : Option String := none
  country : Option String := none
  category : Option String := none
  price : Option ℚ := none
  age : Option ℚ := none
  abv : Option ℚ := none
  rating : Option ℚ := none
  flavor_profile : Option (List (String × ℚ)) := none
  description : Option String := none
deriving DecidableEq, Repr

def cellOfStr : Option String → Cell
  | some s => .str s
  | none => .null

def cellOfNum : Option ℚ → Cell
  | some q => .num q
  | none => .null

def cellOfDict : Option (List (String × ℚ)) → Cell
  | some d => .dict d
  | none => .null

/-- The bottle fields in a canonical record order (pandas orders columns by
first appearance in the input dicts; the claims below never depend on the
relative order of these base columns). -/
def baseFields : List (String × (RawBottle → Cell)) :=
  [("bottle_id", fun b => cellOfStr b.bottle_id),
   ("name", fun b => cellOfStr b.name),
   ("brand", fun b => cellOfStr b.brand),
   ("region", fun b => cellOfStr b.region),
   ("style", fun b => cellOfStr b.style),
   ("country", fun b => cellOfStr b.country),
   ("category", fun b => cellOfStr b.category),
   ("price", fun b => cellOfNum b.price),
   ("age", fun b => cellOfNum b.age),
   ("abv", fun b => cellOfNum b.abv),
   ("rating", fun b => cellOfNum b.rating),
   ("flavor_profile", fun b => cellOfDict b.flavor_profile),
   ("description", fun b => cellOfStr b.description)]

/-- `pd.DataFrame(bottles)`: one column per field carried (non-null) by at
least one record of the batch. -/
def fieldsDF : List (String × (RawBottle → Cell)) → List RawBottle → DF
  | [], _ => []
  | nf :: t, batch =>
      if batch.any (fun b => decide (nf.2 b ≠ Cell.null)) then
        (nf.1, batch.map nf.2) :: fieldsDF t batch
      else fieldsDF t batch

def initDF (batch : List RawBottle) : DF :=
  fieldsDF baseFields batch

-- ### FeatureProcessor.process_bottles

def categoricalFeatures : List String := ["region", "style", "country", "category"]

def numericalFeatures : List String := ["price", "age", "abv", "rating"]

/-- `fillna('Unknown')` on one cell. -/
def fillUnknown : Cell → Cell
  | .null => .str "Unknown"
  | c => c

def asStr : Cell → Option String
  | .str s => some s
  | _ => none

/-- Append `k` unless already seen (first-seen deduplication). -/
def firstSeenAdd (acc : List String) (k : String) : List String :=
  if k ∈ acc then acc else acc ++ [k]

/-- Lexicographic comparison on code points (Python string order). -/
def charListLe : List Char → List Char → Bool
  | [], _ => true
  | _ :: _, [] => false
  | a :: as, b :: bs => if a < b then true else if b < a then false else charListLe as bs

def strLe (a b : String) : Bool := charListLe a.data b.data

/-- `pd.get_dummies` category order: distinct values, sorted. -/
def sortedDistinct (l : List String) : List String :=
  sortBy strLe (l.foldl firstSeenAdd [])

/-- The indicator columns `pd.get_dummies(df[f], prefix=f)` produces. -/
def dummyCols (f : String) (filled : List Cell) : DF :=
  (sortedDistinct (filled.filterMap asStr)).map (fun v =>
    (f ++ "_" ++ v,
     filled.map (fun c => if c = Cell.str v then Cell.num 1 else Cell.num 0)))

/-- One iteration of the categorical loop: fill missing with `"Unknown"`,
then `pd.concat([df, dummies], axis=1)`. -/
def catStepOne (df : DF) (f : String) : DF :=
  match df.getCol f with
  | none => df
  | some cells =>
      let filled := cells.map fillUnknown
      (df.setCol f filled) ++ dummyCols f filled

def categoricalStep (df : DF) : DF := categoricalFeatures.foldl catStepOne df

def cellNum : Cell → Option ℚ
  | .num q => some q
  | _ => none

/-- One iteration of the numerical loop:
`df[f] = df[f].fillna(df[f].median())` then min-max scaling.  A column whose
values are all null is left unchanged (the median of an empty series is NaN
and filling with NaN changes nothing). -/
def processNumericCells (cells : List Cell) : List Cell :=
  let present := cells.filterMap cellNum
  if present.isEmpty then cells
  else
    let m := median present
    let filled := cells.map (fun c => (cellNum c).getD m)
    (minmaxScale filled).map Cell.num

def numStepOne (df : DF) (f : String) : DF :=
  match df.getCol f with
  | none => df
  | some cells => df.setCol f (processNumericCells cells)

def numericStep (df : DF) : DF := numericalFeatures.foldl numStepOne df

def keysOfCell : Cell → List String
  | .dict d => d.map (fun p => p.1)
  | _ => []

/-- `all_flavors`: the union of flavor keys over the non-null dict cells.
Python builds a `set` here and materialises it with `list(...)`; the
iteration order is implementation defined and modelled as first-insertion
order.  The source has no `sorted(...)` call. -/
def allFlavorsFrom (cells : List Cell) : List String :=
  cells.foldl (fun acc c => (keysOfCell c).foldl firstSeenAdd acc) []

def lookupQ (m : List (String × ℚ)) (k : String) : Option ℚ :=
  (m.find? (fun p => p.1 == k)).map (fun p => p.2)

/-- `float(x.get(flavor, 0)) if isinstance(x, dict) else 0`. -/
def flavorVal (c : Cell) (k : String) : ℚ :=
  match c with
  | .dict m => (lookupQ m k).getD 0
  | _ => 0

/-- `df[f'flavor_{flavor}'] = df['flavor_profile'].apply(...)`: the source
re-reads the current `flavor_profile` column on every iteration. -/
def flavorAssignOne (df : DF) (k : String) : DF :=
  df.assign ("flavor_" ++ k)
    (((df.getCol "flavor_profile").getD []).map (fun c => Cell.num (flavorVal c k)))

def flavorStep (df : DF) : DF :=
  match df.getCol "flavor_profile" with
  | none => df
  | some cells => (allFlavorsFrom cells).foldl flavorAssignOne df

/-- `columns_to_drop`: the categorical features plus `name`, `brand`,
`description` — note the raw `flavor_profile` column is not in this list. -/
def dropList : List String := categoricalFeatures ++ ["name", "brand", "description"]

def dropStep (df : DF) : DF := df.dropCols dropList

/-- `FeatureProcessor.process_bottles`.  The `bottle_id` copy/re-add of the
source is a no-op in this model: `bottle_id` is never in `columns_to_drop`,
and re-assigning an existing column keeps its position. -/
def processBottles (batch : List RawBottle) : DF :=
  dropStep (flavorStep (numericStep (categoricalStep (initDF batch))))

-- ### CollectionAnalyzer

/-- `{min, max, avg}` bundle for price / age statistics. -/
structure Stats where
  min : ℚ
  max : ℚ
  avg : ℚ
deriving DecidableEq, Repr

/-- `Series.min() / .max() / .mean()` over the non-null values; the all-null
and empty cases collapse to the zero bundle, as in `_extract_price_range`
and `_extract_age_preference`. -/
def statsOf (xs : List ℚ) : Stats :=
  if xs.isEmpty then ⟨0, 0, 0⟩
  else ⟨(listMin xs).getD 0, (listMax xs).getD 0, xs.sum / (xs.length : ℚ)⟩

/-- `Series.value_counts(normalize=True).to_dict()` over the non-null
values: fraction of occurrences per distinct value, in descending order of
frequency.  Returns the empty mapping when the column is absent or all
null, as in `_extract_region_preferences`. -/
def valueCounts (vals : List (Option String)) : List (String × ℚ) :=
  let present := vals.filterMap id
  if present.isEmpty then []
  else
    sortBy (fun a b => decide (b.2 ≤ a.2))
      ((present.foldl firstSeenAdd []).map
        (fun v => (v, (present.count v : ℚ) / (present.length : ℚ))))

/-- Add `v` to the entry of `k` (first occurrence) or append a new entry —
one `combined_profile[flavor] += float(intensity)` update. -/
def addFlavor : List (String × ℚ) → String → ℚ → List (String × ℚ)
  | [], k, v => [(k, v)]
  | p :: t, k, v => if p.1 == k then (p.1, p.2 + v) :: t else p :: addFlavor t k v

def combineInto (acc : List (String × ℚ)) (prof : List (String × ℚ)) :
    List (String × ℚ) :=
  prof.foldl (fun a q => addFlavor a q.1 q.2) acc

/-- The `combined_profile` accumulated over all valid (dict-valued) flavor
profiles. -/
def combinedProfile (valid : List (List (String × ℚ))) : List (String × ℚ) :=
  valid.foldl combineInto []

/-- `CollectionAnalyzer._extract_flavor_profile`: sum intensities per
flavor over the dict-valued profiles, then divide by the grand total only
when it is positive. -/
def extractFlavorProfile (bottles : List RawBottle) : List (String × ℚ) :=
  let valid := bottles.filterMap (fun b => b.flavor_profile)
  if valid.isEmpty then []
  else
    let combined := combinedProfile valid
    let total := (combined.map (fun p => p.2)).sum
    if 0 < total then combined.map (fun p => (p.1, p.2 / total)) else combined

/-- `CollectionAnalyzer._identify_top_characteristics`. -/
def topCharacteristics (regions styles flavors : List (String × ℚ)) :
    List String :=
  let tr := ((sortBy (fun a b => decide (b.2 ≤ a.2)) regions).take 2).map
    (fun p => "Region: " ++ p.1)
  let ts := ((sortBy (fun a b => decide (b.2 ≤ a.2)) styles).take 2).map
    (fun p => "Style: " ++ p.1)
  let tf := ((sortBy (fun a b => decide (b.2 ≤ a.2)) flavors).take 3).map
    (fun p => "Flavor: " ++ p.1)
  (tr ++ ts ++ tf).take 5

/-- The preference profile returned by `analyze_collection`. -/
structure Preferences where
  regions : List (String × ℚ)
  styles : List (String × ℚ)
  price_range : Stats
  age_preference : Stats
  flavor_profile : List (String × ℚ)
  top_characteristics : List String
deriving DecidableEq, Repr

/-- `CollectionAnalyzer.analyze_collection`. -/
def analyzeCollection (bottles : List RawBottle) : Preferences :=
  if bottles.isEmpty then ⟨[], [], ⟨0, 0, 0⟩, ⟨0, 0, 0⟩, [], []⟩
  else
    let regions := valueCounts (bottles.map (fun b => b.region))
    let styles := valueCounts (bottles.map (fun b => b.style))
    let fp := extractFlavorProfile bottles
    { regions := regions, styles := styles,
      price_range := statsOf (bottles.filterMap (fun b => b.price)),
      age_preference := statsOf (bottles.filterMap (fun b => b.age)),
      flavor_profile := fp,
      top_characteristics := topCharacteristics regions styles fp }

-- ### Catalog bottles (rows of `bottles_df` after `_load_bottle_data`)

/-- A catalog row after `_load_bottle_data`: numeric fields are coerced
with `fillna` defaults (price 0.0, age 0, abv 0.0, rating 3.0) and
`flavor_profile` is always a dict.  `country`, `category` and
`description` are not in the ensured-column list, so they stay optional. -/
structure CatalogBottle where
  bottle_id : Option String := none
  name : Option String := none
  brand : Option String := none
  region : Option String := none
  style : Option String := none
  country : Option String := none
  category : Option String := none
  price : ℚ := 0
  age : ℚ := 0
  abv : ℚ := 0
  rating : ℚ := 3
  flavor_profile : List (String × ℚ) := []
  description : Option String := none
deriving DecidableEq, Repr

/-- `candidate_bottles.to_dict('records')`: a catalog row as a record for
the Feature Processor. -/
def catalogToRaw (b : CatalogBottle) : RawBottle :=
  { bottle_id := b.bottle_id, name := b.name, brand := b.brand,
    region := b.region, style := b.style, country := b.country,
    category := b.category, price := some b.price, age := some b.age,
    abv := some b.abv, rating := some b.rating,
    flavor_profile := some b.flavor_profile, description := b.description }

-- ### Output records

/-- One recommendation record.  `reason = none` models the *absence* of the
`reason` key from the Python dict; `some s` models presence with value `s`. -/
structure Recommendation where
  bottle_id : String
  name : String
  brand : String
  region : String
  style : String
  price : ℚ
  age : Option ℤ
  score : ℚ
  abv : Option ℚ
  flavor_profile : List (String × ℚ)
  description : String
  reason : Option String
deriving DecidableEq, Repr

/-- The record built inside `_calculate_recommendations` from catalog row
`b`, the candidate's `bottle_id` string and its similarity score; note
`'reason': ''` is always initialised there. -/
def mkRec (b : CatalogBottle) (idStr : String) (score : ℚ) : Recommendation :=
  { bottle_id := idStr, name := pyStr b.name, brand := pyStr b.brand,
    region := pyStr b.region, style := pyStr b.style, price := b.price,
    age := some (pyInt b.age), score := score, abv := some b.abv,
    flavor_profile := b.flavor_profile,
    description := b.description.getD "", reason := some "" }

-- ### _calculate_recommendations

/-- The price-band adjustment loop of `_calculate_recommendations`
(lines 146-154): when the profile's average price is positive, any entry of
`prices` outside `[max(0, 0.7*avg), 1.5*avg]` has the score at the same
index multiplied by 0.7.  `prices` is the (scaled) `price` column of the
candidate feature matrix. -/
def adjustGo (pmin pmax : ℚ) : List ℚ → List ℚ → List ℚ
  | _, [] => []
  | [], s :: ss => s :: adjustGo pmin pmax [] ss
  | p :: ps, s :: ss =>
      (if p < pmin ∨ pmax < p then s * (7/10) else s) :: adjustGo pmin pmax ps ss

def adjustScores (avg : ℚ) (prices : List ℚ) (scores : List ℚ) : List ℚ :=
  if 0 < avg then adjustGo (max 0 (avg * (7/10))) (avg * (3/2)) prices scores
  else scores

/-- `similarity_scores.argsort()`: indices in ascending score order
(ties in unspecified order; modelled stable). -/
def argsortAsc (scores : List ℚ) : List ℕ :=
  sortBy (fun i j => decide (scores.getD i 0 ≤ scores.getD j 0))
    (List.range scores.length)

/-- `argsort()[-count*2:][::-1]`: the top `2*count` indices, best first. -/
def topIndices (scores : List ℚ) (count : ℕ) : List ℕ :=
  (argsortAsc scores).reverse.take (2 * count)

/-- One loop body of the recommendation-building loop: look the candidate's
`bottle_id` up, then the catalog row with that id; rows whose id cell is
not a string (label lookup on a null never matches) and ids without a
catalog row are skipped, as are rows raising KeyError. -/
def recOfIdx (catalog : List CatalogBottle) (ids : List Cell) (scores : List ℚ)
    (idx : ℕ) : Option Recommendation :=
  match ids[idx]? with
  | some (Cell.str s) =>
      (catalog.find? (fun b => b.bottle_id == some s)).map
        (fun b => mkRec b s ((scores[idx]?).getD 0))
  | _ => none

/-- The recommendation-building loop; when the candidate matrix has no
`bottle_id` column every iteration raises KeyError and is skipped. -/
def buildRecs (catalog : List CatalogBottle) (idsOpt : Option (List Cell))
    (scores : List ℚ) (idxs : List ℕ) : List Recommendation :=
  match idsOpt with
  | none => []
  | some ids => idxs.filterMap (recOfIdx catalog ids scores)

/-- `[col for col in user.columns if col in candidate.columns]`. -/
def commonColumns (u c : DF) : List String :=
  (DF.columnNames u).filter (fun col => c.hasCol col)

/-- `[col for col in common_columns if col != 'bottle_id']`. -/
def featureColumns (u c : DF) : List String :=
  (commonColumns u c).filter (fun col => !(col == "bottle_id"))

/-- `candidate_features_df['price'].values if 'price' in ... else []`. -/
def pricesOf (df : DF) : List ℚ :=
  match df.getCol "price" with
  | some cells => cells.map (fun c => (cellNum c).getD 0)
  | none => []

/-- `WhiskyRecommender._calculate_recommendations`.  `cosSim` stands for
the composition of `DataFrame.mean(axis=0)` and sklearn's
`cosine_similarity` applied to the two matrices restricted to the common
feature columns; it is a third-party floating point computation and every
theorem below quantifies over it. -/
def calculateRecommendations (catalog : List CatalogBottle) (userDF candDF : DF)
    (prefs : Preferences) (count : ℕ) (cosSim : DF → DF → List ℚ) :
    Except String (List Recommendation) :=
  let common := commonColumns userDF candDF
  let userC := userDF.selectCols common
  let candC := candDF.selectCols common
  let featCols := featureColumns userDF candDF
  if featCols.isEmpty then
    Except.error "No common feature columns found for similarity calculation"
  else
    let scores := cosSim (userC.selectCols featCols) (candC.selectCols featCols)
    let adjusted := adjustScores prefs.price_range.avg (pricesOf candC) scores
    Except.ok (buildRecs catalog (candC.getCol "bottle_id") adjusted
      ((topIndices adjusted count).take count))

-- ### _get_default_recommendations

/-- The record appended by the fallback loop (`score` is the fixed 0.95;
no `reason` key is set here). -/
def mkDefaultRec (b : CatalogBottle) (region style : String) : Recommendation :=
  { bottle_id := pyStr b.bottle_id, name := pyStr b.name,
    brand := pyStr b.brand, region := region, style := style,
    price := b.price, age := some (pyInt b.age), score := 19/20,
    abv := some b.abv, flavor_profile := b.flavor_profile,
    description := b.description.getD "", reason := none }

/-- Loop state of the fallback loop: chosen records plus the `regions` and
`styles` sets (modelled as first-seen lists; only membership is used). -/
structure DefaultState where
  recs : List Recommendation
  regions : List String
  styles : List String

/-- One iteration of the fallback loop: stop at `count` records, skip rows
with a null `bottle_id` or `name`, and skip a row whose region is already
among the chosen regions AND whose style is already among the chosen
styles once more than `count/2` (true division) records are chosen. -/
def defaultStepFn (count : ℕ) (st : DefaultState) (b : CatalogBottle) :
    DefaultState :=
  if st.recs.length ≥ count then st
  else if b.bottle_id = none ∨ b.name = none then st
  else
    let region := pyStr b.region
    let style := pyStr b.style
    if region ∈ st.regions ∧ style ∈ st.styles ∧
        (st.recs.length : ℚ) > (count : ℚ) / 2 then st
    else
      ⟨st.recs ++ [mkDefaultRec b region style],
       firstSeenAdd st.regions region, firstSeenAdd st.styles style⟩

/-- The positional new-user reasoning; `rec['region'] or 'quality'` is the
Python truthiness fallback (only the empty string is falsy here). -/
def defaultReasonFor (i : ℕ) (rec : Recommendation) : Recommendation :=
  let region := if rec.region = "" then "quality" else rec.region
  let style := if rec.style = "" then "premium" else rec.style
  let r :=
    if i = 0 then
      "A highly-rated " ++ region ++ " whisky perfect for starting your collection"
    else if i = 1 then
      "An excellent " ++ style ++ " style that\x27s widely appreciated by whisky enthusiasts"
    else if i = 2 then
      "A versatile " ++ region ++ " whisky that showcases classic characteristics"
    else
      "A distinguished bottle that represents the best of " ++ region ++ " whisky"
  { rec with reason := some r }

/-- `WhiskyRecommender._get_default_recommendations` (the username plays no
role in its body).  Top `3*count` rows by rating, then the greedy loop,
then the positional reasoning when requested. -/
def defaultRecommendations (catalog : List CatalogBottle) (count : ℕ)
    (includeReasoning : Bool) : List Recommendation :=
  let top := (sortBy (fun a b => decide (b.rating ≤ a.rating)) catalog).take (3 * count)
  let recs := (top.foldl (defaultStepFn count) ⟨[], [], []⟩).recs
  if includeReasoning then recs.mapIdx defaultReasonFor else recs

-- ### _add_recommendation_reasoning

def lookupD (m : List (String × ℚ)) (k : String) (d : ℚ) : ℚ :=
  (lookupQ m k).getD d

/-- The list of fired reasoning sentences for one recommendation, in the
fixed source order. -/
def reasonsFor (prefs : Preferences) (rec : Recommendation) : List String :=
  let r1 :=
    if rec.region ≠ "" ∧ lookupD prefs.regions rec.region 0 > 1/10 then
      ["Matches your preference for " ++ rec.region ++ " whiskies"]
    else []
  let r2 :=
    if rec.style ≠ "" ∧ lookupD prefs.styles rec.style 0 > 1/10 then
      ["Aligns with your interest in " ++ rec.style ++ " whiskies"]
    else []
  let r3 :=
    if prefs.price_range.avg > 0 ∧ rec.price > 0 then
      let ratioPA := rec.price / prefs.price_range.avg
      if 8/10 ≤ ratioPA ∧ ratioPA ≤ 12/10 then
        ["Similar price point to your collection"]
      else if ratioPA < 8/10 then
        ["Great value compared to your collection"]
      else if ratioPA ≤ 3/2 then
        ["Premium option within your price range"]
      else []
    else []
  let r4 :=
    match rec.age with
    | some a =>
      if prefs.age_preference.avg > 0 ∧ a ≠ 0 then
        if |(a : ℚ) - prefs.age_preference.avg| ≤ 3 then
          ["Age statement (" ++ toString a ++ " years) similar to your collection"]
        else if (a : ℚ) > prefs.age_preference.avg + 3 then
          ["More mature expression (" ++ toString a ++ " years) than your average"]
        else []
      else []
    | none => []
  let fm := (prefs.flavor_profile.filter (fun p =>
      decide ((1:ℚ)/10 < p.2) &&
        (match lookupQ rec.flavor_profile p.1 with
         | some i => decide ((1:ℚ)/2 < i)
         | none => false))).map (fun p => p.1)
  let r5 :=
    if fm.isEmpty then []
    else if fm.length = 1 then
      ["Matches your preference for " ++ fm.headD "" ++ " notes"]
    else
      ["Shares flavor notes you enjoy: " ++
        String.intercalate ", " fm.dropLast ++ " and " ++ fm.getLastD ""]
  let fired := r1 ++ r2 ++ r3 ++ r4 ++ r5
  if fired.isEmpty then
    ["Complements your current collection"]
    ++ (if rec.region ≠ "" ∧ ¬(lookupD prefs.regions rec.region 0 > 0) then
          ["Diversifies your collection with a " ++ rec.region ++ " whisky"]
        else [])
    ++ (if rec.style ≠ "" ∧ ¬(lookupD prefs.styles rec.style 0 > 0) then
          ["Adds variety with a " ++ rec.style ++ " style"]
        else [])
  else fired

/-- `WhiskyRecommender._add_recommendation_reasoning`. -/
def addReasoning (recs : List Recommendation) (prefs : Preferences) :
    List Recommendation :=
  recs.map (fun rec =>
    { rec with reason := some (String.intercalate ". " (reasonsFor prefs rec)) })

-- ### BaxusAPI

/-- A raw bottle record as delivered by the external API. -/
structure ApiBottle where
  bottle_id : Option String := none
  name : Option String := none
  brand : Option String := none
  region : Option String := none
  style : Option String := none
  country : Option String := none
  price : Option ℚ := none
  age : Option ℚ := none
  abv : Option ℚ := none
  rating : Option ℚ := none
  flavor_profile : Option (List (String × ℚ)) := none
deriving DecidableEq, Repr

/-- `BaxusAPI._normalize_bottles` on one record: every field filled with
its default (`''`, `0.0`, `0`, `3.0`, `{}`); the normalized dict carries no
`category` or `description` key. -/
def normalizeBottle (b : ApiBottle) : RawBottle :=
  { bottle_id := some (b.bottle_id.getD ""), name := some (b.name.getD ""),
    brand := some (b.brand.getD ""), region := some (b.region.getD ""),
    style := some (b.style.getD ""), country := some (b.country.getD ""),
    category := none, price := some (b.price.getD 0),
    age := some ((pyInt (b.age.getD 0) : ℚ)), abv := some (b.abv.getD 0),
    rating := some (b.rating.getD 3),
    flavor_profile := some (b.flavor_profile.getD []), description := none }

/-- The outcome of the HTTP call inside `get_user_bar`: a JSON list, a
JSON object with `bottles`/`wishlist`, or any transport failure
(connection error, timeout, non-2xx status — the caught
`requests.exceptions.RequestException`). -/
inductive ApiResponse where
  | listResp : List ApiBottle → ApiResponse
  | dictResp : List ApiBottle → List ApiBottle → ApiResponse
  | failure : ApiResponse

/-- The user's bar as received by the recommender. -/
structure UserBar where
  bottles : List RawBottle
  wishlist : List RawBottle
deriving DecidableEq, Repr

/-- `BaxusAPI.get_user_bar`: normalize on success; on any transport
failure return the well-formed empty structure instead of raising. -/
def getUserBar : ApiResponse → UserBar
  | .listResp l => ⟨l.map normalizeBottle, []⟩
  | .dictResp b w => ⟨b.map normalizeBottle, w.map normalizeBottle⟩
  | .failure => ⟨[], []⟩

-- ### get_recommendations

def ownedIds (bar : UserBar) : List (Option String) :=
  bar.bottles.map (fun b => b.bottle_id)

def wishlistIds (bar : UserBar) : List (Option String) :=
  bar.wishlist.map (fun b => b.bottle_id)

/-- `self.bottles_df[~bottles_df['bottle_id'].isin(user_ids + wishlist_ids)]`. -/
def candidatesOf (catalog : List CatalogBottle) (bar : UserBar) :
    List CatalogBottle :=
  catalog.filter (fun b =>
    !(decide (b.bottle_id ∈ ownedIds bar ++ wishlistIds bar)))

/-- `WhiskyRecommender.get_recommendations`, taking the user bar delivered
by `get_user_bar` as an argument (the API call is the I/O boundary). -/
def getRecommendationsCore (catalog : List CatalogBottle) (bar : UserBar)
    (count : ℕ) (includeReasoning : Bool) (cosSim : DF → DF → List ℚ) :
    Except String (List Recommendation) :=
  if bar.bottles.isEmpty then
    Except.ok (defaultRecommendations catalog count includeReasoning)
  else
    let prefs := analyzeCollection bar.bottles
    let cands := candidatesOf catalog bar
    if cands.isEmpty then
      Except.ok (defaultRecommendations catalog count includeReasoning)
    else
      let userDF := processBottles bar.bottles
      let candDF := processBottles (cands.map catalogToRaw)
      (calculateRecommendations catalog userDF candDF prefs count cosSim).map
        (fun recs => if includeReasoning then addReasoning recs prefs else recs)

/-- `get_recommendations` composed with the API client. -/
def getRecommendationsApi (catalog : List CatalogBottle) (resp : ApiResponse)
    (count : ℕ) (includeReasoning : Bool) (cosSim : DF → DF → List ℚ) :
    Except String (List Recommendation) :=
  getRecommendationsCore catalog (getUserBar resp) count includeReasoning cosSim

-- ### String helper lemmas (column-name freshness)

theorem str_append_ne (p v q : String)
    (h : p.data.isPrefixOf q.data = false) : p ++ v ≠ q := by
  intro he
  have hd : p.data ++ v.data = q.data := by
    rw [← String.data_append, he]
  have hpre : p.data.isPrefixOf q.data = true := by
    rw [List.isPrefixOf_iff_prefix]
    exact ⟨v.data, hd⟩
  rw [h] at hpre
  cases hpre

theorem str_append_ne_two (p₁ v₁ p₂ v₂ : String) (c₁ c₂ : Char)
    (h₁ : p₁.data.head? = some c₁) (h₂ : p₂.data.head? = some c₂)
    (hne : c₁ ≠ c₂) : p₁ ++ v₁ ≠ p₂ ++ v₂ := by
  intro he
  have hd : p₁.data ++ v₁.data = p₂.data ++ v₂.data := by
    rw [← String.data_append, ← String.data_append, he]
  cases hp₁ : p₁.data with
  | nil => rw [hp₁] at h₁; cases h₁
  | cons a t₁ =>
    cases hp₂ : p₂.data with
    | nil => rw [hp₂] at h₂; cases h₂
    | cons b t₂ =>
      rw [hp₁] at h₁ hd
      rw [hp₂] at h₂ hd
      simp at h₁ h₂
      simp at hd
      exact hne (h₁ ▸ h₂ ▸ hd.1)

theorem str_append_left_cancel (a b c : String) (h : a ++ b = a ++ c) :
    b = c := by
  have hd : a.data ++ b.data = a.data ++ c.data := by
    rw [← String.data_append, ← String.data_append, h]
  have h2 := List.append_cancel_left hd
  cases b
  cases c
  exact congrArg String.mk (by simpa using h2)

-- ### Column preservation through the processing steps

theorem getCol_catStepOne (df : DF) (f n : String) (hne : f ≠ n)
    (hfresh : ∀ v, f ++ "_" ++ v ≠ n) :
    DF.getCol (catStepOne df f) n = DF.getCol df n := by
  unfold catStepOne
  cases hg : df.getCol f with
  | none => rfl
  | some cells =>
    have hnone : DF.getCol (dummyCols f (cells.map fillUnknown)) n = none := by
      apply DF.getCol_none_of_not_mem
      intro hmem
      simp [dummyCols, DF.columnNames] at hmem
      obtain ⟨v, _, hv⟩ := hmem
      exact hfresh v hv
    rw [DF.getCol_append_right_none _ _ _ hnone]
    exact DF.getCol_setCol_ne _ _ _ _ hne

theorem getCol_categoricalStep (df : DF) (n : String)
    (hne : ∀ f ∈ categoricalFeatures, f ≠ n)
    (hfresh : ∀ f ∈ categoricalFeatures, ∀ v, f ++ "_" ++ v ≠ n) :
    DF.getCol (categoricalStep df) n = DF.getCol df n := by
  have hr : "region" ∈ categoricalFeatures := by simp [categoricalFeatures]
  have hs : "style" ∈ categoricalFeatures := by simp [categoricalFeatures]
  have hc : "country" ∈ categoricalFeatures := by simp [categoricalFeatures]
  have hg : "category" ∈ categoricalFeatures := by simp [categoricalFeatures]
  show DF.getCol (catStepOne (catStepOne (catStepOne (catStepOne df
    "region") "style") "country") "category") n = DF.getCol df n
  rw [getCol_catStepOne _ _ _ (hne _ hg) (hfresh _ hg),
      getCol_catStepOne _ _ _ (hne _ hc) (hfresh _ hc),
      getCol_catStepOne _ _ _ (hne _ hs) (hfresh _ hs),
      getCol_catStepOne _ _ _ (hne _ hr) (hfresh _ hr)]

theorem getCol_numStepOne_ne (df : DF) (f n : String) (hne : f ≠ n) :
    DF.getCol (numStepOne df f) n = DF.getCol df n := by
  unfold numStepOne
  cases hg : df.getCol f with
  | none => rfl
  | some cells => exact DF.getCol_setCol_ne _ _ _ _ hne

theorem getCol_numStepOne_self (df : DF) (f : String) :
    DF.getCol (numStepOne df f) f = (DF.getCol df f).map processNumericCells := by
  unfold numStepOne
  cases hg : df.getCol f with
  | none => simp [hg]
  | some cells => simp [hg, DF.getCol_setCol_self df f _ cells hg]

theorem getCol_numericStep_ne (df : DF) (n : String)
    (hne : ∀ f ∈ numericalFeatures, f ≠ n) :
    DF.getCol (numericStep df) n = DF.getCol df n := by
  have h1 : "price" ∈ numericalFeatures := by simp [numericalFeatures]
  have h2 : "age" ∈ numericalFeatures := by simp [numericalFeatures]
  have h3 : "abv" ∈ numericalFeatures := by simp [numericalFeatures]
  have h4 : "rating" ∈ numericalFeatures := by simp [numericalFeatures]
  show DF.getCol (numStepOne (numStepOne (numStepOne (numStepOne df
    "price") "age") "abv") "rating") n = DF.getCol df n
  rw [getCol_numStepOne_ne _ _ _ (hne _ h4), getCol_numStepOne_ne _ _ _ (hne _ h3),
      getCol_numStepOne_ne _ _ _ (hne _ h2), getCol_numStepOne_ne _ _ _ (hne _ h1)]

theorem getCol_numericStep_self (df : DF) (f : String)
    (hf : f ∈ numericalFeatures) :
    DF.getCol (numericStep df) f = (DF.getCol df f).map processNumericCells := by
  fin_cases hf
  · show DF.getCol (numStepOne (numStepOne (numStepOne (numStepOne df
      "price") "age") "abv") "rating") "price" = _
    rw [getCol_numStepOne_ne _ _ _ (by decide), getCol_numStepOne_ne _ _ _ (by decide),
        getCol_numStepOne_ne _ _ _ (by decide), getCol_numStepOne_self]
  · show DF.getCol (numStepOne (numStepOne (numStepOne (numStepOne df
      "price") "age") "abv") "rating") "age" = _
    rw [getCol_numStepOne_ne _ _ _ (by decide), getCol_numStepOne_ne _ _ _ (by decide),
        getCol_numStepOne_self, getCol_numStepOne_ne _ _ _ (by decide)]
  · show DF.getCol (numStepOne (numStepOne (numStepOne (numStepOne df
      "price") "age") "abv") "rating") "abv" = _
    rw [getCol_numStepOne_ne _ _ _ (by decide), getCol_numStepOne_self,
        getCol_numStepOne_ne _ _ _ (by decide), getCol_numStepOne_ne _ _ _ (by decide)]
  · show DF.getCol (numStepOne (numStepOne (numStepOne (numStepOne df
      "price") "age") "abv") "rating") "rating" = _
    rw [getCol_numStepOne_self, getCol_numStepOne_ne _ _ _ (by decide),
        getCol_numStepOne_ne _ _ _ (by decide), getCol_numStepOne_ne _ _ _ (by decide)]

theorem getCol_flavorFold (ks : List String) (df : DF) (n : String)
    (hfresh : ∀ k ∈ ks, "flavor_" ++ k ≠ n) :
    DF.getCol (ks.foldl flavorAssignOne df) n = DF.getCol df n := by
  induction ks generalizing df with
  | nil => rfl
  | cons k t ih =>
    show DF.getCol (t.foldl flavorAssignOne (flavorAssignOne df k)) n = _
    rw [ih _ (fun k2 hk2 => hfresh k2 (List.mem_cons_of_mem _ hk2))]
    exact DF.getCol_assign_ne _ _ _ _ (hfresh k (List.mem_cons_self _ _))

theorem getCol_flavorStep (df : DF) (n : String)
    (hfresh : ∀ k, "flavor_" ++ k ≠ n) :
    DF.getCol (flavorStep df) n = DF.getCol df n := by
  unfold flavorStep
  cases hg : df.getCol "flavor_profile" with
  | none => rfl
  | some cells => exact getCol_flavorFold _ _ _ (fun k _ => hfresh k)

theorem getCol_dropStep (df : DF) (n : String) (hn : n ∉ dropList) :
    DF.getCol (dropStep df) n = DF.getCol df n :=
  DF.getCol_dropCols df dropList n hn

-- ### Characterising the initial DataFrame

theorem columnNames_fieldsDF_sub (l : List (String × (RawBottle → Cell)))
    (batch : List RawBottle) (m : String)
    (hm : m ∈ DF.columnNames (fieldsDF l batch)) : m ∈ l.map Prod.fst := by
  induction l with
  | nil => simp [fieldsDF, DF.columnNames] at hm
  | cons hd t ih =>
    by_cases hc : batch.any (fun b => decide (hd.2 b ≠ Cell.null))
    · simp only [fieldsDF, hc, if_true, DF.columnNames, List.map_cons] at hm
      rcases List.mem_cons.mp hm with he | ht
      · exact List.mem_map.mpr ⟨hd, List.mem_cons_self _ _, he.symm⟩
      · exact List.mem_cons_of_mem _ (ih ht)
    · simp only [fieldsDF, hc, if_false] at hm
      exact List.mem_cons_of_mem _ (ih hm)

theorem getCol_fieldsDF (l : List (String × (RawBottle → Cell)))
    (batch : List RawBottle) (n : String) (g : RawBottle → Cell)
    (hnod : (l.map Prod.fst).Nodup) (hmem : (n, g) ∈ l) :
    DF.getCol (fieldsDF l batch) n =
      if batch.any (fun b => decide (g b ≠ Cell.null)) then
        some (batch.map g)
      else none := by
  induction l with
  | nil => cases hmem
  | cons hd t ih =>
    obtain ⟨hdn, hdg⟩ := hd
    simp only [List.map_cons, List.nodup_cons] at hnod
    rcases List.mem_cons.mp hmem with he | hmemt
    · have he1 : n = hdn := congrArg Prod.fst he
      have he2 : g = hdg := congrArg Prod.snd he
      subst he1
      subst he2
      simp only [fieldsDF]
      by_cases hc : (batch.any (fun b => decide (g b ≠ Cell.null))) = true
      · rw [if_pos hc, if_pos hc]
        simp [DF.getCol]
      · rw [if_neg hc, if_neg hc]
        exact DF.getCol_none_of_not_mem _ _
          (fun hmm => hnod.1 (columnNames_fieldsDF_sub t batch n hmm))
    · have hne : hdn ≠ n := by
        intro he
        exact (he ▸ hnod.1) (List.mem_map.mpr ⟨(n, g), hmemt, rfl⟩)
      have hbe : (hdn == n) = false := by simpa using hne
      simp only [fieldsDF]
      by_cases hc : (batch.any (fun b => decide (hdg b ≠ Cell.null))) = true
      · rw [if_pos hc]
        simp only [DF.getCol, hbe, if_false]
        exact ih hnod.2 hmemt
      · rw [if_neg hc]
        exact ih hnod.2 hmemt

theorem getCol_initDF_bottle_id (batch : List RawBottle) :
    DF.getCol (initDF batch) "bottle_id" =
      if batch.any (fun b => decide (cellOfStr b.bottle_id ≠ Cell.null)) then
        some (batch.map (fun b => cellOfStr b.bottle_id))
      else none := by
  refine getCol_fieldsDF baseFields batch "bottle_id"
    (fun b => cellOfStr b.bottle_id) (by decide) ?_
  simp [baseFields]

-- ### Master preservation theorems for process_bottles

theorem processBottles_bottle_id (batch : List RawBottle) :
    DF.getCol (processBottles batch) "bottle_id" =
      DF.getCol (initDF batch) "bottle_id" := by
  unfold processBottles
  rw [getCol_dropStep _ _ (by decide),
      getCol_flavorStep _ _ (fun k => str_append_ne _ _ _ (by decide)),
      getCol_numericStep_ne _ _ (fun f hf => by fin_cases hf <;> decide),
      getCol_categoricalStep _ _ (fun f hf => by fin_cases hf <;> decide)
        (fun f hf v => by
          fin_cases hf <;> exact str_append_ne _ _ _ (by decide))]

theorem processBottles_numeric (batch : List RawBottle) (f : String)
    (hf : f ∈ numericalFeatures) :
    DF.getCol (processBottles batch) f =
      (DF.getCol (initDF batch) f).map processNumericCells := by
  fin_cases hf
  all_goals
    unfold processBottles
  · rw [getCol_dropStep _ _ (by decide),
        getCol_flavorStep _ _ (fun k => str_append_ne _ _ _ (by decide)),
        getCol_numericStep_self _ _ (by decide),
        getCol_categoricalStep _ _ (fun g hg => by fin_cases hg <;> decide)
          (fun g hg v => by
            fin_cases hg <;> exact str_append_ne _ _ _ (by decide))]
  · rw [getCol_dropStep _ _ (by decide),
        getCol_flavorStep _ _ (fun k => str_append_ne _ _ _ (by decide)),
        getCol_numericStep_self _ _ (by decide),
        getCol_categoricalStep _ _ (fun g hg => by fin_cases hg <;> decide)
          (fun g hg v => by
            fin_cases hg <;> exact str_append_ne _ _ _ (by decide))]
  · rw [getCol_dropStep _ _ (by decide),
        getCol_flavorStep _ _ (fun k => str_append_ne _ _ _ (by decide)),
        getCol_numericStep_self _ _ (by decide),
        getCol_categoricalStep _ _ (fun g hg => by fin_cases hg <;> decide)
          (fun g hg v => by
            fin_cases hg <;> exact str_append_ne _ _ _ (by decide))]
  · rw [getCol_dropStep _ _ (by decide),
        getCol_flavorStep _ _ (fun k => str_append_ne _ _ _ (by decide)),
        getCol_numericStep_self _ _ (by decide),
        getCol_categoricalStep _ _ (fun g hg => by fin_cases hg <;> decide)
          (fun g hg v => by
            fin_cases hg <;> exact str_append_ne _ _ _ (by decide))]

-- ### Claim C9

/-- C9: when the external user-collection provider fails (transport error
or timeout), `get_user_bar` hands the core the well-defined empty
collection instead of an exception, and the recommendation request does
not fail: it degrades to the new-user fallback and returns its ordered
list of recommendations, for every catalog, count, reasoning flag and
similarity function. -/
theorem c9_provider_failure_degrades_to_fallback (catalog : List CatalogBottle)
    (count : ℕ) (includeReasoning : Bool) (cosSim : DF → DF → List ℚ) :
    getUserBar ApiResponse.failure = ⟨[], []⟩ ∧
    getRecommendationsApi catalog ApiResponse.failure count includeReasoning cosSim =
      Except.ok (defaultRecommendations catalog count includeReasoning) :=
  ⟨rfl, rfl⟩

-- ### Claim C10

/-- C10: if, with a non-empty owned collection and a non-empty candidate
pool, the reconciled feature matrices share no column other than
`bottle_id`, `get_recommendations` aborts with the ValueError of
`_calculate_recommendations` (modelled as `Except.error` with the source's
message) instead of degrading to the fallback. -/
theorem c10_no_common_feature_columns_aborts (catalog : List CatalogBottle)
    (bar : UserBar) (count : ℕ) (includeReasoning : Bool)
    (cosSim : DF → DF → List ℚ)
    (hb : bar.bottles ≠ [])
    (hc : candidatesOf catalog bar ≠ [])
    (hfeat : featureColumns (processBottles bar.bottles)
      (processBottles ((candidatesOf catalog bar).map catalogToRaw)) = []) :
    getRecommendationsCore catalog bar count includeReasoning cosSim =
      Except.error "No common feature columns found for similarity calculation" := by
  have h1 : ¬(bar.bottles.isEmpty = true) := by
    simpa [List.isEmpty_iff] using hb
  have h2 : ¬((candidatesOf catalog bar).isEmpty = true) := by
    simpa [List.isEmpty_iff] using hc
  have h3 : (featureColumns (processBottles bar.bottles)
      (processBottles ((candidatesOf catalog bar).map catalogToRaw))).isEmpty = true := by
    rw [hfeat]; rfl
  simp only [getRecommendationsCore, calculateRecommendations]
  rw [if_neg h1, if_neg h2, if_pos h3]
  rfl

/-- A one-bottle catalog with all feature fields populated. -/
def c10Catalog : List CatalogBottle :=
  [{ bottle_id := some "c1", name := some "C1", region := some "R",
     style := some "S", price := 10, age := 2, abv := 40, rating := 5,
     flavor_profile := [("smoky", 1)] }]

/-- A user bar whose single owned record carries only `bottle_id`, so its
feature matrix has no feature column at all. -/
def c10Bar : UserBar := ⟨[{ bottle_id := some "u1" }], []⟩

/-- Witness for C10: at the concrete catalog and bar above the call
returns the ValueError. -/
theorem c10_no_common_feature_columns_aborts_witness :
    getRecommendationsCore c10Catalog c10Bar 1 false (fun _ _ => []) =
      Except.error "No common feature columns found for similarity calculation" := by
  apply c10_no_common_feature_columns_aborts
  · simp [c10Bar]
  · simp [candidatesOf, ownedIds, wishlistIds, c10Catalog, c10Bar]
  · simp [featureColumns, commonColumns, c10Catalog, c10Bar, processBottles,
      dropStep, flavorStep, numericStep, categoricalStep, initDF, fieldsDF,
      baseFields, cellOfStr, cellOfNum, cellOfDict, catStepOne, numStepOne,
      flavorAssignOne, dummyCols, sortedDistinct, firstSeenAdd, insertSorted,
      sortBy, fillUnknown, asStr, allFlavorsFrom, keysOfCell,
      processNumericCells, cellNum, median, sortAsc, listMin, listMax,
      minmaxScale, DF.getCol, DF.setCol, DF.assign, DF.hasCol, DF.dropCols,
      DF.columnNames, DF.selectCols, candidatesOf, ownedIds, wishlistIds,
      catalogToRaw, lookupQ, flavorVal, DF.getCol_append,
      categoricalFeatures, numericalFeatures, dropList, List.foldl]


-- ### Claim C5

/-- A batch without any `bottle_id`. -/
def c5Batch : List RawBottle := [{ price := some 10, region := some "R" }]

/-- Counterexample to C5: a batch lacking `bottle_id` does NOT raise — no
`SchemaError` exists anywhere in the source — the processor returns an
ordinary feature matrix that simply has no identity column. -/
theorem c5_counterexample :
    processBottles c5Batch =
      [("price", [Cell.num 0]), ("region_R", [Cell.num 1])] ∧
    DF.hasCol (processBottles c5Batch) "bottle_id" = false := by
  decide

/-- C5 amended: `process_bottles` never raises; when at least one record
of the batch carries a `bottle_id` the output retains the input
`bottle_id` column unchanged as a passthrough identity column, and when no
record does, the output is an ordinary matrix without an identity column
(`none` rather than an error). -/
theorem c5_bottle_id_passthrough_no_error (batch : List RawBottle) :
    DF.getCol (processBottles batch) "bottle_id" =
      (if batch.any (fun b => decide (cellOfStr b.bottle_id ≠ Cell.null)) then
        some (batch.map (fun b => cellOfStr b.bottle_id))
      else none) := by
  rw [processBottles_bottle_id, getCol_initDF_bottle_id]

-- ### Claim C3

theorem foldl_min_all_eq (xs : List ℚ) (x c : ℚ) (hx : x = c)
    (h : ∀ y ∈ xs, y = c) : xs.foldl min x = c := by
  induction xs generalizing x with
  | nil => simpa using hx
  | cons y ys ih =>
    have hy : y = c := h y (List.mem_cons_self _ _)
    have : min x y = c := by rw [hx, hy, min_self]
    exact ih _ this (fun z hz => h z (List.mem_cons_of_mem _ hz))

theorem foldl_max_all_eq (xs : List ℚ) (x c : ℚ) (hx : x = c)
    (h : ∀ y ∈ xs, y = c) : xs.foldl max x = c := by
  induction xs generalizing x with
  | nil => simpa using hx
  | cons y ys ih =>
    have hy : y = c := h y (List.mem_cons_self _ _)
    have : max x y = c := by rw [hx, hy, max_self]
    exact ih _ this (fun z hz => h z (List.mem_cons_of_mem _ hz))

/-- A constant column min-max scales to all zeros: `(x - min)` vanishes and
the zero range is replaced by 1, so no division by zero occurs. -/
theorem minmaxScale_all_eq (l : List ℚ) (c : ℚ) (h : ∀ x ∈ l, x = c) :
    minmaxScale l = l.map (fun _ => 0) := by
  cases l with
  | nil => rfl
  | cons x xs =>
    have hmin : listMin (x :: xs) = some c := by
      simp only [listMin, Option.some.injEq]
      exact foldl_min_all_eq xs x c (h x (List.mem_cons_self _ _))
        (fun y hy => h y (List.mem_cons_of_mem _ hy))
    have hmax : listMax (x :: xs) = some c := by
      simp only [listMax, Option.some.injEq]
      exact foldl_max_all_eq xs x c (h x (List.mem_cons_self _ _))
        (fun y hy => h y (List.mem_cons_of_mem _ hy))
    simp only [minmaxScale, hmin, hmax]
    refine List.map_congr_left ?_
    intro a ha
    rw [h a ha, sub_self, if_pos rfl, zero_div]

theorem filterMap_cellNum_replicate_null (k : ℕ) :
    (List.replicate k Cell.null).filterMap cellNum = [] := by
  induction k with
  | zero => rfl
  | succ m ih => simp [List.replicate, cellNum, ih]

/-- Modelled from the claim's words (spec section 4.2 step 2) for
comparison: fill missing with 0, then min-max scale over the batch. -/
def specFillZeroScale (cells : List Cell) : List Cell :=
  let filled := cells.map (fun c => (cellNum c).getD 0)
  (minmaxScale filled).map Cell.num

/-- Batch with prices 10, 20 and one missing price. -/
def c3Batch : List RawBottle :=
  [{ price := some 10 }, { price := some 20 }, { price := none }]

/-- Counterexample to C3: on prices `[10, 20, NaN]` the source fills the
missing value with the MEDIAN 15 and scales to `[0, 1, 1/2]`, while the
claim's fill-with-0 rule would scale to `[1/2, 1, 0]`. -/
theorem c3_counterexample :
    DF.getCol (processBottles c3Batch) "price" =
      some [Cell.num 0, Cell.num 1, Cell.num (1/2)] ∧
    specFillZeroScale [Cell.num 10, Cell.num 20, Cell.null] =
      [Cell.num (1/2), Cell.num 1, Cell.num 0] ∧
    DF.getCol (processBottles c3Batch) "price" ≠
      some (specFillZeroScale [Cell.num 10, Cell.num 20, Cell.null]) := by
  decide

/-- C3 amended: for every batch, each configured numeric column present in
the batch is transformed by `processNumericCells`: missing values are
filled with the column MEDIAN over the non-null values (not 0; and the
source applies no non-numeric coercion here), then min-max scaled.  A
column whose values are all equal scales to 0 for every row, and an
all-null column passes through unchanged — never NaN or a division by
zero. -/
theorem c3_numeric_median_fill_then_scale (batch : List RawBottle)
    (f : String) (hf : f ∈ numericalFeatures) :
    (DF.getCol (processBottles batch) f =
      (DF.getCol (initDF batch) f).map processNumericCells) ∧
    (∀ (q : ℚ) (k : ℕ),
      processNumericCells (List.replicate k (Cell.num q)) =
        List.replicate k (Cell.num 0)) ∧
    (∀ k : ℕ,
      processNumericCells (List.replicate k Cell.null) =
        List.replicate k Cell.null) := by
  refine ⟨processBottles_numeric batch f hf, ?_, ?_⟩
  · intro q k
    cases k with
    | zero => rfl
    | succ m =>
      have hpres : ((List.replicate (m + 1) (Cell.num q)).filterMap cellNum).isEmpty = false := by
        simp [List.replicate, cellNum]
      simp only [processNumericCells, hpres, Bool.false_eq_true, if_false]
      have hfill : (List.replicate (m + 1) (Cell.num q)).map
          (fun c => (cellNum c).getD
            (median ((List.replicate (m + 1) (Cell.num q)).filterMap cellNum))) =
          List.replicate (m + 1) q := by
        rw [List.map_replicate]
        rfl
      rw [hfill, minmaxScale_all_eq _ q (by simp), List.map_replicate,
        List.map_replicate]
  · intro k
    simp only [processNumericCells, filterMap_cellNum_replicate_null k]
    rfl

/-- Witness for C3 amended at the concrete batch and the `price` column. -/
theorem c3_numeric_median_fill_then_scale_witness :
    DF.getCol (processBottles c3Batch) "price" =
      (DF.getCol (initDF c3Batch) "price").map processNumericCells :=
  (c3_numeric_median_fill_then_scale c3Batch "price" (by decide)).1

-- ### Claim C6

/-- The total intensity the claim aggregates for flavor `k` in one
profile (a profile is a dict, so in practice one matching pair). -/
def sumOfKey (k : String) (prof : List (String × ℚ)) : ℚ :=
  ((prof.filter (fun p => p.1 == k)).map (fun p => p.2)).sum

theorem lookupD_addFlavor (acc : List (String × ℚ)) (k k2 : String) (v : ℚ) :
    lookupD (addFlavor acc k2 v) k 0 =
      lookupD acc k 0 + (if k2 == k then v else 0) := by
  induction acc with
  | nil =>
    by_cases hk : k2 == k
    · simp [addFlavor, lookupD, lookupQ, List.find?, hk]
    · simp [addFlavor, lookupD, lookupQ, List.find?, hk]
  | cons p t ih =>
    by_cases hp : p.1 == k2
    · have hp1 : p.1 = k2 := by simpa using hp
      by_cases hk : p.1 == k
      · have hk1 : p.1 = k := by simpa using hk
        have h2k : (k2 == k) = true := by rw [← hp1, hk1]; simp
        simp [addFlavor, lookupD, lookupQ, List.find?, hp, hk, h2k]
      · have h2k : (k2 == k) = false := by
          rw [← hp1]; simpa using hk
        simp [addFlavor, lookupD, lookupQ, List.find?, hp, hk, h2k]
    · by_cases hk : p.1 == k
      · have h2k : (k2 == k) = false := by
          have hp1 : p.1 = k := by simpa using hk
          rw [← hp1]
          rcases hb : p.1 == k2 with _ | _
          · have : k2 ≠ p.1 := by
              intro he
              rw [he] at hb
              simp at hb
            simpa using this
          · exact absurd hb hp
        simp [addFlavor, lookupD, lookupQ, List.find?, hp, hk, h2k]
      · simp [addFlavor, lookupD, lookupQ, List.find?, hp, hk] at ih ⊢
        exact ih

theorem lookupD_combineInto (prof : List (String × ℚ))
    (acc : List (String × ℚ)) (k : String) :
    lookupD (combineInto acc prof) k 0 = lookupD acc k 0 + sumOfKey k prof := by
  induction prof generalizing acc with
  | nil => simp [combineInto, sumOfKey]
  | cons q t ih =>
    show lookupD (combineInto (addFlavor acc q.1 q.2) t) k 0 = _
    rw [ih, lookupD_addFlavor]
    by_cases hq : q.1 == k
    · simp [sumOfKey, List.filter_cons, hq]
      ring
    · simp [sumOfKey, List.filter_cons, hq]

theorem lookupD_foldl_combineInto (valid : List (List (String × ℚ)))
    (acc : List (String × ℚ)) (k : String) :
    lookupD (valid.foldl combineInto acc) k 0 =
      lookupD acc k 0 + (valid.map (sumOfKey k)).sum := by
  induction valid generalizing acc with
  | nil => simp
  | cons prof t ih =>
    show lookupD (t.foldl combineInto (combineInto acc prof)) k 0 = _
    rw [ih, lookupD_combineInto]
    simp [List.map_cons]
    ring

theorem lookupD_combinedProfile (valid : List (List (String × ℚ))) (k : String) :
    lookupD (combinedProfile valid) k 0 = (valid.map (sumOfKey k)).sum := by
  unfold combinedProfile
  rw [lookupD_foldl_combineInto]
  simp [lookupD, lookupQ, List.find?]

theorem sum_map_div_list (l : List ℚ) (t : ℚ) :
    (l.map (fun x => x / t)).sum = l.sum / t := by
  induction l with
  | nil => simp
  | cons x xs ih => simp [List.map_cons, List.sum_cons, ih, add_div]

/-- Counterexample to C6: one owned bottle whose flavor map is
`{smoky: 0}` has grand total 0, which is not greater than 0, and the
source then returns the UNNORMALISED combined mapping `{smoky: 0}` — a
non-empty mapping, where the claim requires the empty mapping. -/
theorem c6_counterexample :
    extractFlavorProfile [{ flavor_profile := some [("smoky", 0)] }] =
      [("smoky", 0)] ∧
    extractFlavorProfile [{ flavor_profile := some [("smoky", 0)] }] ≠ [] := by
  decide

/-- C6 amended: the flavor profile sums intensities per flavor name over
all owned bottles' dict-valued flavor maps (missing or non-mapping
profiles are skipped); when the grand total is positive each sum is
divided by it and the resulting weights sum to 1; when no valid profile
exists the result is empty; and when the grand total is NOT positive the
result is the unnormalised combined mapping — in no case is a division by
zero performed. -/
theorem c6_flavor_aggregation (bottles : List RawBottle) :
    (∀ k : String,
      lookupD (combinedProfile (bottles.filterMap (fun b => b.flavor_profile))) k 0 =
        ((bottles.filterMap (fun b => b.flavor_profile)).map (sumOfKey k)).sum) ∧
    (bottles.filterMap (fun b => b.flavor_profile) = [] →
      extractFlavorProfile bottles = []) ∧
    (0 < ((combinedProfile (bottles.filterMap (fun b => b.flavor_profile))).map
        (fun p => p.2)).sum →
      ((extractFlavorProfile bottles).map (fun p => p.2)).sum = 1) ∧
    (¬ 0 < ((combinedProfile (bottles.filterMap (fun b => b.flavor_profile))).map
        (fun p => p.2)).sum →
      extractFlavorProfile bottles =
        combinedProfile (bottles.filterMap (fun b => b.flavor_profile))) := by
  refine ⟨fun k => lookupD_combinedProfile _ k, ?_, ?_, ?_⟩
  · intro h
    simp [extractFlavorProfile, h]
  · intro hpos
    have hne : ¬(bottles.filterMap (fun b => b.flavor_profile)).isEmpty = true := by
      intro he
      rw [List.isEmpty_iff.mp he] at hpos
      simp [combinedProfile] at hpos
    simp only [extractFlavorProfile, hne, Bool.false_eq_true, if_false,
      hpos, if_pos]
    rw [List.map_map]
    have : ((combinedProfile (bottles.filterMap (fun b => b.flavor_profile))).map
        ((fun p => p.2) ∘ (fun p => (p.1, p.2 /
          ((combinedProfile (bottles.filterMap (fun b => b.flavor_profile))).map
            (fun p => p.2)).sum)))) =
        ((combinedProfile (bottles.filterMap (fun b => b.flavor_profile))).map
          (fun p => p.2)).map (fun x => x /
            ((combinedProfile (bottles.filterMap (fun b => b.flavor_profile))).map
              (fun p => p.2)).sum) := by
      rw [List.map_map]
      rfl
    rw [this, sum_map_div_list, div_self (ne_of_gt hpos)]
  · intro hneg
    by_cases he : (bottles.filterMap (fun b => b.flavor_profile)).isEmpty = true
    · rw [List.isEmpty_iff.mp he]
      simp [extractFlavorProfile, List.isEmpty_iff.mp he, combinedProfile]
    · simp only [extractFlavorProfile, he, Bool.false_eq_true, if_false,
        hneg, if_neg]

/-- Witness for C6 amended: two profiles `{smoky: 2}` and
`{smoky: 1, oak: 1}` — the combined total 4 is positive and the normalised
weights sum to 1. -/
theorem c6_flavor_aggregation_witness :
    ((extractFlavorProfile
      [{ flavor_profile := some [("smoky", 2)] },
       { flavor_profile := some [("smoky", 1), ("oak", 1)] }]).map
        (fun p => p.2)).sum = 1 :=
  (c6_flavor_aggregation _).2.2.1 (by decide)

-- ### Claim C1

/-- Owned bottles priced 50 and 150: the preference profile's average
price is exactly 100. -/
def c1Owned : List RawBottle :=
  [normalizeBottle { bottle_id := some "u1", name := some "U1", price := some 50 },
   normalizeBottle { bottle_id := some "u2", name := some "U2", price := some 150 }]

/-- Candidate catalog rows priced 100 (inside the band [70, 150]) and 200
(outside it). -/
def c1Candidates : List CatalogBottle :=
  [{ bottle_id := some "c1", name := some "C1", price := 100 },
   { bottle_id := some "c2", name := some "C2", price := 200 }]

/-- C1 (code bug): with `price_range.avg = 100` the band is `[70, 150]`,
but the loop of `_calculate_recommendations` compares the MIN-MAX SCALED
candidate prices (here `[0, 1]`, produced by `process_bottles`) against
that raw-price band, so BOTH candidates — including the one priced 100,
squarely inside the band — are multiplied by 0.7; applying the same band
logic to the raw prices `[100, 200]`, as the claim describes, would
penalise only the candidate priced 200. -/
theorem c1_price_band_compares_scaled_prices :
    (analyzeCollection c1Owned).price_range.avg = 100 ∧
    DF.getCol (processBottles (c1Candidates.map catalogToRaw)) "price" =
      some [Cell.num 0, Cell.num 1] ∧
    (∀ s t : ℚ, adjustScores 100 [0, 1] [s, t] = [s * (7/10), t * (7/10)]) ∧
    (∀ s t : ℚ, adjustScores 100 [100, 200] [s, t] = [s, t * (7/10)]) := by
  refine ⟨by decide, by decide, ?_, ?_⟩
  · intro s t
    have h1 : ((0:ℚ) < 100) := by norm_num
    have h2 : ((0:ℚ) < max 0 (100 * (7/10)) ∨ (100:ℚ) * (3/2) < 0) := by
      left
      rw [max_eq_right (by norm_num : (0:ℚ) ≤ 100 * (7/10))]
      norm_num
    have h3 : ((1:ℚ) < max 0 (100 * (7/10)) ∨ (100:ℚ) * (3/2) < 1) := by
      left
      rw [max_eq_right (by norm_num : (0:ℚ) ≤ 100 * (7/10))]
      norm_num
    simp [adjustScores, adjustGo, h1, h2, h3]
    norm_num
  · intro s t
    have h1 : ((0:ℚ) < 100) := by norm_num
    have h2 : ¬((100:ℚ) < max 0 (100 * (7/10)) ∨ (100:ℚ) * (3/2) < 100) := by
      rw [max_eq_right (by norm_num : (0:ℚ) ≤ 100 * (7/10))]
      push_neg
      norm_num
    have h3 : ((200:ℚ) < max 0 (100 * (7/10)) ∨ (100:ℚ) * (3/2) < 200) := by
      right
      norm_num
    simp [adjustScores, adjustGo, h1, h2, h3]
    norm_num

-- ### Fold invariants for the fallback loop

theorem defaultFold_inv (count : ℕ) (P : Recommendation → Prop)
    (l : List CatalogBottle) (st : DefaultState)
    (hst : ∀ r ∈ st.recs, P r)
    (hP : ∀ b ∈ l, b.bottle_id ≠ none → b.name ≠ none →
      ∀ region style, P (mkDefaultRec b region style)) :
    ∀ r ∈ (l.foldl (defaultStepFn count) st).recs, P r := by
  induction l generalizing st with
  | nil => exact hst
  | cons b t ih =>
    show ∀ r ∈ (t.foldl (defaultStepFn count) (defaultStepFn count st b)).recs, P r
    refine ih (defaultStepFn count st b) ?_
      (fun b2 hb2 => hP b2 (List.mem_cons_of_mem _ hb2))
    intro r hr
    simp only [defaultStepFn] at hr
    by_cases h1 : st.recs.length ≥ count
    · rw [if_pos h1] at hr
      exact hst r hr
    · rw [if_neg h1] at hr
      by_cases h2 : b.bottle_id = none ∨ b.name = none
      · rw [if_pos h2] at hr
        exact hst r hr
      · rw [if_neg h2] at hr
        push_neg at h2
        by_cases h3 : pyStr b.region ∈ st.regions ∧ pyStr b.style ∈ st.styles ∧
            (st.recs.length : ℚ) > (count : ℚ) / 2
        · rw [if_pos h3] at hr
          exact hst r hr
        · rw [if_neg h3] at hr
          rcases List.mem_append.mp hr with hmem | hnew
          · exact hst r hmem
          · have : r = mkDefaultRec b (pyStr b.region) (pyStr b.style) := by
              simpa using hnew
            rw [this]
            exact hP b (List.mem_cons_self _ _) h2.1 h2.2 _ _

theorem defaultRecs_reason_none (catalog : List CatalogBottle) (count : ℕ) :
    ∀ r ∈ defaultRecommendations catalog count false, r.reason = none := by
  intro r hr
  simp only [defaultRecommendations, Bool.false_eq_true, if_false] at hr
  exact defaultFold_inv count (fun rec => rec.reason = none) _ _
    (by intro r2 hr2; cases hr2) (fun b _ _ _ region style => rfl) r hr

-- ### Inverting the personalized path

theorem mem_buildRecs (catalog : List CatalogBottle) (idsOpt : Option (List Cell))
    (scores : List ℚ) (idxs : List ℕ) (rec : Recommendation)
    (h : rec ∈ buildRecs catalog idsOpt scores idxs) :
    ∃ (ids : List Cell) (idx : ℕ) (s : String) (b : CatalogBottle),
      idsOpt = some ids ∧ ids[idx]? = some (Cell.str s) ∧
      catalog.find? (fun b2 => b2.bottle_id == some s) = some b ∧
      rec = mkRec b s ((scores[idx]?).getD 0) := by
  cases idsOpt with
  | none => cases h
  | some ids =>
    simp only [buildRecs] at h
    rcases List.mem_filterMap.mp h with ⟨idx, hidx, hrec⟩
    cases hid : ids[idx]? with
    | none => simp [recOfIdx, hid] at hrec
    | some cell =>
      cases cell with
      | str s =>
        cases hfind : catalog.find? (fun b2 => b2.bottle_id == some s) with
        | none => simp [recOfIdx, hid, hfind] at hrec
        | some b =>
          refine ⟨ids, idx, s, b, rfl, hid, hfind, ?_⟩
          simp [recOfIdx, hid, hfind] at hrec
          exact hrec.symm
      | num q => simp [recOfIdx, hid] at hrec
      | dict d => simp [recOfIdx, hid] at hrec
      | null => simp [recOfIdx, hid] at hrec

theorem calc_ok_inv (catalog : List CatalogBottle) (userDF candDF : DF)
    (prefs : Preferences) (count : ℕ) (cosSim : DF → DF → List ℚ)
    (recs0 : List Recommendation)
    (h : calculateRecommendations catalog userDF candDF prefs count cosSim =
      Except.ok recs0) :
    ∃ scores idxs, recs0 = buildRecs catalog
      ((candDF.selectCols (commonColumns userDF candDF)).getCol "bottle_id")
      scores idxs := by
  simp only [calculateRecommendations] at h
  by_cases hfe : (featureColumns userDF candDF).isEmpty = true
  · rw [if_pos hfe] at h
    cases h
  · rw [if_neg hfe] at h
    exact ⟨_, _, (Except.ok.inj h).symm⟩

-- ### Claim C7

/-- A one-bottle catalog for the fallback path. -/
def c7Catalog : List CatalogBottle :=
  [{ bottle_id := some "w1", name := some "W1", region := some "R",
     style := some "S", rating := 9 }]

/-- The record the fallback produces for `c7Catalog` without reasoning. -/
def c7Rec : Recommendation :=
  { bottle_id := "w1", name := "W1", brand := "None", region := "R",
    style := "S", price := 0, age := some 0, score := 19/20, abv := some 0,
    flavor_profile := [], description := "", reason := none }

/-- Counterexample to C7: on the new-user fallback path with
`include_reasoning=False` the returned record carries NO `reason` key at
all (the dict built in `_get_default_recommendations` never sets one), so
the field is not "present and equal to the empty string". -/
theorem c7_counterexample :
    getRecommendationsCore c7Catalog ⟨[], []⟩ 1 false (fun _ _ => []) =
      Except.ok [c7Rec] ∧ c7Rec.reason ≠ some "" := by
  decide

/-- C7 amended: with `include_reasoning=False` the Reasoning Generator is
not run and the `reason` field is initialised to the empty string on every
record of the personalized path — but on the new-user fallback path
(owned empty or all candidates excluded) the records OMIT the `reason`
key entirely (`none`), rather than carrying an empty string. -/
theorem c7_reason_empty_on_personalized_absent_on_fallback
    (catalog : List CatalogBottle) (bar : UserBar) (count : ℕ)
    (cosSim : DF → DF → List ℚ) (recs : List Recommendation)
    (rec : Recommendation)
    (hok : getRecommendationsCore catalog bar count false cosSim = Except.ok recs)
    (hrec : rec ∈ recs) :
    ((bar.bottles = [] ∨ candidatesOf catalog bar = []) → rec.reason = none) ∧
    (bar.bottles ≠ [] → candidatesOf catalog bar ≠ [] → rec.reason = some "") := by
  constructor
  · intro hfall
    have hrecs : recs = defaultRecommendations catalog count false := by
      by_cases hb : bar.bottles.isEmpty = true
      · simp only [getRecommendationsCore, hb, if_true] at hok
        exact (Except.ok.inj hok).symm
      · rcases hfall with hb2 | hc
        · exact absurd (by rw [hb2]; rfl) hb
        · have hc2 : (candidatesOf catalog bar).isEmpty = true := by
            rw [hc]; rfl
          simp only [getRecommendationsCore, hb, Bool.false_eq_true, if_false,
            hc2, if_true] at hok
          exact (Except.ok.inj hok).symm
    rw [hrecs] at hrec
    exact defaultRecs_reason_none catalog count rec hrec
  · intro hb hc
    have h1 : ¬(bar.bottles.isEmpty = true) := by
      simpa [List.isEmpty_iff] using hb
    have h2 : ¬((candidatesOf catalog bar).isEmpty = true) := by
      simpa [List.isEmpty_iff] using hc
    simp only [getRecommendationsCore] at hok
    rw [if_neg h1, if_neg h2] at hok
    cases hcalc : calculateRecommendations catalog (processBottles bar.bottles)
        (processBottles ((candidatesOf catalog bar).map catalogToRaw))
        (analyzeCollection bar.bottles) count cosSim with
    | error e =>
      rw [hcalc] at hok
      simp [Except.map] at hok
    | ok recs0 =>
      rw [hcalc] at hok
      simp only [Except.map, Bool.false_eq_true, if_false] at hok
      have hr0 : rec ∈ recs0 := by
        rw [Except.ok.inj hok]
        exact hrec
      obtain ⟨scores, idxs, hb0⟩ := calc_ok_inv _ _ _ _ _ _ _ hcalc
      rw [hb0] at hr0
      obtain ⟨ids, idx, s, b, _, _, _, hrec_eq⟩ :=
        mem_buildRecs _ _ _ _ rec hr0
      rw [hrec_eq]
      rfl

/-- Witness for C7 amended, on the fallback side: the concrete record of
the counterexample run has `reason = none`. -/
theorem c7_reason_witness : c7Rec.reason = none :=
  (c7_reason_empty_on_personalized_absent_on_fallback c7Catalog ⟨[], []⟩ 1
      (fun _ _ => []) [c7Rec] c7Rec (by decide) (by decide)).1 (Or.inl rfl)

-- ### Column-schema lemmas for the flavor step

theorem columnNames_numStepOne (df : DF) (f : String) :
    DF.columnNames (numStepOne df f) = DF.columnNames df := by
  unfold numStepOne
  cases hg : df.getCol f with
  | none => rfl
  | some cells => exact DF.columnNames_setCol df f _

theorem columnNames_numericStep (df : DF) :
    DF.columnNames (numericStep df) = DF.columnNames df := by
  show DF.columnNames (numStepOne (numStepOne (numStepOne (numStepOne df
    "price") "age") "abv") "rating") = DF.columnNames df
  rw [columnNames_numStepOne, columnNames_numStepOne, columnNames_numStepOne,
    columnNames_numStepOne]

theorem cols_catStepOne_sub (df : DF) (f n : String)
    (h : n ∈ DF.columnNames (catStepOne df f)) :
    n ∈ DF.columnNames df ∨ ∃ v, n = f ++ "_" ++ v := by
  unfold catStepOne at h
  cases hg : df.getCol f with
  | none =>
    rw [hg] at h
    exact Or.inl h
  | some cells =>
    rw [hg] at h
    rw [DF.columnNames_append, DF.columnNames_setCol] at h
    rcases List.mem_append.mp h with h1 | h2
    · exact Or.inl h1
    · right
      simp [dummyCols, DF.columnNames] at h2
      obtain ⟨v, _, hv⟩ := h2
      exact ⟨v, hv.symm⟩

theorem cols_categoricalStep_sub (df : DF) (n : String)
    (h : n ∈ DF.columnNames (categoricalStep df)) :
    n ∈ DF.columnNames df ∨
      ∃ f v, f ∈ categoricalFeatures ∧ n = f ++ "_" ++ v := by
  replace h : n ∈ DF.columnNames (catStepOne (catStepOne (catStepOne
    (catStepOne df "region") "style") "country") "category") := h
  rcases cols_catStepOne_sub _ _ _ h with h | ⟨v, hv⟩
  · rcases cols_catStepOne_sub _ _ _ h with h | ⟨v, hv⟩
    · rcases cols_catStepOne_sub _ _ _ h with h | ⟨v, hv⟩
      · rcases cols_catStepOne_sub _ _ _ h with h | ⟨v, hv⟩
        · exact Or.inl h
        · exact Or.inr ⟨"region", v, by decide, hv⟩
      · exact Or.inr ⟨"style", v, by decide, hv⟩
    · exact Or.inr ⟨"country", v, by decide, hv⟩
  · exact Or.inr ⟨"category", v, by decide, hv⟩

theorem firstSeenAdd_nodup (acc : List String) (k : String) (h : acc.Nodup) :
    (firstSeenAdd acc k).Nodup := by
  unfold firstSeenAdd
  by_cases hm : k ∈ acc
  · rw [if_pos hm]; exact h
  · rw [if_neg hm]
    simp [List.nodup_append, h, hm]

theorem foldl_firstSeenAdd_nodup (ks : List String) (acc : List String)
    (h : acc.Nodup) : (ks.foldl firstSeenAdd acc).Nodup := by
  induction ks generalizing acc with
  | nil => exact h
  | cons k t ih => exact ih _ (firstSeenAdd_nodup acc k h)

theorem allFlavorsFrom_nodup (cells : List Cell) : (allFlavorsFrom cells).Nodup := by
  unfold allFlavorsFrom
  suffices hgen : ∀ (cs : List Cell) (acc : List String), acc.Nodup →
      (cs.foldl (fun a c => (keysOfCell c).foldl firstSeenAdd a) acc).Nodup by
    exact hgen cells [] (by simp)
  intro cs
  induction cs with
  | nil => exact fun acc h => h
  | cons c t ih =>
    intro acc h
    exact ih _ (foldl_firstSeenAdd_nodup _ _ h)

theorem cols_flavorFold (ks : List String) (d : DF) (hnod : ks.Nodup)
    (hfresh : ∀ k ∈ ks, ("flavor_" ++ k) ∉ DF.columnNames d) :
    DF.columnNames (ks.foldl flavorAssignOne d) =
      DF.columnNames d ++ ks.map (fun k => "flavor_" ++ k) := by
  induction ks generalizing d with
  | nil => simp
  | cons k t ih =>
    show DF.columnNames (t.foldl flavorAssignOne (flavorAssignOne d k)) = _
    have hk : ("flavor_" ++ k) ∉ DF.columnNames d :=
      hfresh k (List.mem_cons_self _ _)
    have hone : DF.columnNames (flavorAssignOne d k) =
        DF.columnNames d ++ ["flavor_" ++ k] := by
      unfold flavorAssignOne
      exact DF.columnNames_assign_fresh _ _ _ hk
    rw [ih (flavorAssignOne d k) (List.nodup_cons.mp hnod).2 ?hfr, hone]
    · simp
    case hfr =>
      intro k2 hk2 hmem
      rw [hone] at hmem
      rcases List.mem_append.mp hmem with h1 | h2
      · exact hfresh k2 (List.mem_cons_of_mem _ hk2) h1
      · have heq : "flavor_" ++ k2 = "flavor_" ++ k := by simpa using h2
        have : k2 = k := str_append_left_cancel _ _ _ heq
        exact (List.nodup_cons.mp hnod).1 (this ▸ hk2)

theorem columnNames_dropCols (df : DF) (cs : List String) :
    DF.columnNames (df.dropCols cs) =
      (DF.columnNames df).filter (fun n => !(decide (n ∈ cs))) := by
  induction df with
  | nil => rfl
  | cons p t ih =>
    by_cases hm : p.1 ∈ cs
    · simp only [DF.dropCols, List.filter_cons, hm, DF.columnNames,
        List.map_cons] at *
      simp [hm, ih]
    · simp only [DF.dropCols, List.filter_cons, hm, DF.columnNames,
        List.map_cons] at *
      simp [hm, ih]

theorem flavorName_not_dropList (k : String) : ("flavor_" ++ k) ∉ dropList := by
  intro h
  simp [dropList, categoricalFeatures] at h
  rcases h with h | h | h | h | h | h | h <;>
    exact str_append_ne _ _ _ (by decide) h

/-- The flavor-key union the flavor step works from: keys of the
`flavor_profile` column of the batch DataFrame, in first-insertion order. -/
def allFlavorsOfBatch (batch : List RawBottle) : List String :=
  allFlavorsFrom ((DF.getCol (initDF batch) "flavor_profile").getD [])

theorem flavorName_fresh_in_catStep (batch : List RawBottle) (k : String)
    (hp : k ≠ "profile") :
    ("flavor_" ++ k) ∉ DF.columnNames (categoricalStep (initDF batch)) := by
  intro hmem
  rcases cols_categoricalStep_sub _ _ hmem with hbase | ⟨f, v, hf, hv⟩
  · have hb := columnNames_fieldsDF_sub baseFields batch _ hbase
    simp [baseFields] at hb
    rcases hb with h | h | h | h | h | h | h | h | h | h | h | h | h
    · exact str_append_ne _ _ _ (by decide) h
    · exact str_append_ne _ _ _ (by decide) h
    · exact str_append_ne _ _ _ (by decide) h
    · exact str_append_ne _ _ _ (by decide) h
    · exact str_append_ne _ _ _ (by decide) h
    · exact str_append_ne _ _ _ (by decide) h
    · exact str_append_ne _ _ _ (by decide) h
    · exact str_append_ne _ _ _ (by decide) h
    · exact str_append_ne _ _ _ (by decide) h
    · exact str_append_ne _ _ _ (by decide) h
    · exact str_append_ne _ _ _ (by decide) h
    · -- "flavor_" ++ k = "flavor_profile"
      have h2 : "flavor_" ++ k = "flavor_" ++ "profile" := by
        rw [h]; decide
      exact hp (str_append_left_cancel _ _ _ h2)
    · exact str_append_ne _ _ _ (by decide) h
  · fin_cases hf
    · exact str_append_ne_two "flavor_" k ("region" ++ "_") v 'f' 'r'
        (by decide) (by decide) (by decide) hv
    · exact str_append_ne_two "flavor_" k ("style" ++ "_") v 'f' 's'
        (by decide) (by decide) (by decide) hv
    · exact str_append_ne_two "flavor_" k ("country" ++ "_") v 'f' 'c'
        (by decide) (by decide) (by decide) hv
    · exact str_append_ne_two "flavor_" k ("category" ++ "_") v 'f' 'c'
        (by decide) (by decide) (by decide) hv

-- ### Claim C8

/-- One bottle whose flavor dict lists `smoky` before `apple`. -/
def c8Batch : List RawBottle :=
  [{ bottle_id := some "x", flavor_profile := some [("smoky", 1), ("apple", 1)] }]

/-- Counterexample to C8: the flavor columns of the processed matrix
appear in first-insertion order `flavor_smoky, flavor_apple` — the union
of flavor keys is NOT sorted (sorting would put `apple` first): the source
builds `list(all_flavors)` from a `set` with no `sorted(...)` call. -/
theorem c8_counterexample :
    DF.columnNames (processBottles c8Batch) =
      ["bottle_id", "flavor_profile", "flavor_smoky", "flavor_apple"] ∧
    allFlavorsOfBatch c8Batch = ["smoky", "apple"] ∧
    sortedDistinct (allFlavorsOfBatch c8Batch) = ["apple", "smoky"] ∧
    allFlavorsOfBatch c8Batch ≠ sortedDistinct (allFlavorsOfBatch c8Batch) := by
  decide

/-- C8 amended: the Feature Processor is deterministic — the embedding is
a pure function of the batch — and the column schema is fully determined:
the processed matrix's columns are the surviving base and indicator
columns followed by one `flavor_{k}` column per distinct flavor key `k` in
FIRST-INSERTION order (the model of Python's set-iteration order), not in
sorted order; the flavor column names are pairwise distinct.  (The
`"profile"` key is excluded: a flavor literally named `profile` would
overwrite the `flavor_profile` column instead of appending.) -/
theorem c8_schema_deterministic_unsorted_flavor_columns
    (batch : List RawBottle)
    (hp : "profile" ∉ allFlavorsOfBatch batch) :
    DF.columnNames (processBottles batch) =
      (DF.columnNames (categoricalStep (initDF batch))).filter
        (fun n => !(decide (n ∈ dropList)))
      ++ (allFlavorsOfBatch batch).map (fun k => "flavor_" ++ k) ∧
    ((allFlavorsOfBatch batch).map (fun k => "flavor_" ++ k)).Nodup := by
  constructor
  · have hfp : DF.getCol (numericStep (categoricalStep (initDF batch)))
        "flavor_profile" = DF.getCol (initDF batch) "flavor_profile" := by
      rw [getCol_numericStep_ne _ _ (fun f hf => by fin_cases hf <;> decide),
          getCol_categoricalStep _ _ (fun f hf => by fin_cases hf <;> decide)
            (fun f hf v => by
              fin_cases hf <;> exact str_append_ne _ _ _ (by decide))]
    unfold processBottles dropStep
    cases hcol : DF.getCol (initDF batch) "flavor_profile" with
    | none =>
      have hstep : flavorStep (numericStep (categoricalStep (initDF batch))) =
          numericStep (categoricalStep (initDF batch)) := by
        simp only [flavorStep, hfp, hcol]
      rw [hstep, columnNames_dropCols, columnNames_numericStep]
      simp [allFlavorsOfBatch, hcol, allFlavorsFrom]
    | some cells =>
      have hstep : flavorStep (numericStep (categoricalStep (initDF batch))) =
          (allFlavorsFrom cells).foldl flavorAssignOne
            (numericStep (categoricalStep (initDF batch))) := by
        simp only [flavorStep, hfp, hcol]
      have hflav : allFlavorsOfBatch batch = allFlavorsFrom cells := by
        simp [allFlavorsOfBatch, hcol]
      rw [hstep, columnNames_dropCols,
        cols_flavorFold _ _ (allFlavorsFrom_nodup cells) ?hfr,
        List.filter_append, columnNames_numericStep, hflav]
      · have hkeep : ((allFlavorsFrom cells).map
            (fun k => "flavor_" ++ k)).filter
              (fun n => !(decide (n ∈ dropList))) =
            (allFlavorsFrom cells).map (fun k => "flavor_" ++ k) := by
          refine List.filter_eq_self.mpr ?_
          intro n hn
          rcases List.mem_map.mp hn with ⟨k, _, hk⟩
          rw [← hk]
          simpa using flavorName_not_dropList k
        rw [hkeep]
      case hfr =>
        intro k hk hmem
        rw [columnNames_numericStep] at hmem
        have hkp : k ≠ "profile" := by
          intro he
          rw [← hflav] at hk
          exact hp (he ▸ hk)
        exact flavorName_fresh_in_catStep batch k hkp hmem
  · refine List.Nodup.map ?_ ?_
    · intro a b hab
      exact str_append_left_cancel _ _ _ hab
    · unfold allFlavorsOfBatch
      exact allFlavorsFrom_nodup _

/-- Witness for C8 amended at the concrete two-flavor batch. -/
theorem c8_schema_witness :
    DF.columnNames (processBottles c8Batch) =
      (DF.columnNames (categoricalStep (initDF c8Batch))).filter
        (fun n => !(decide (n ∈ dropList)))
      ++ (allFlavorsOfBatch c8Batch).map (fun k => "flavor_" ++ k) :=
  (c8_schema_deterministic_unsorted_flavor_columns c8Batch (by decide)).1

-- ### Claim C4

/-- Loop state for the claim's variant of the fallback loop. -/
structure SpecDefaultState where
  recs : List Recommendation
  pairs : List (String × String)

/-- Modelled from the claim's words (spec section 4.6): skip a bottle
exactly when its (region, style) PAIR is already represented among the
chosen bottles and more than half of the `count` slots are filled. -/
def specDefaultStepFn (count : ℕ) (st : SpecDefaultState) (b : CatalogBottle) :
    SpecDefaultState :=
  if st.recs.length ≥ count then st
  else if b.bottle_id = none ∨ b.name = none then st
  else
    let region := pyStr b.region
    let style := pyStr b.style
    if (region, style) ∈ st.pairs ∧ (st.recs.length : ℚ) > (count : ℚ) / 2 then st
    else ⟨st.recs ++ [mkDefaultRec b region style], st.pairs ++ [(region, style)]⟩

/-- The fallback selection the claim describes, for comparison with the
source's `defaultRecommendations`. -/
def specDefaultRecommendations (catalog : List CatalogBottle) (count : ℕ)
    (includeReasoning : Bool) : List Recommendation :=
  let top := (sortBy (fun a b => decide (b.rating ≤ a.rating)) catalog).take (3 * count)
  let recs := (top.foldl (specDefaultStepFn count) ⟨[], []⟩).recs
  if includeReasoning then recs.mapIdx defaultReasonFor else recs

/-- Five bottles with distinct ratings; `b4` repeats `b1`'s region with
`b2`'s style, so its (region, style) pair is NOT yet represented when it
is reached, but its region and style each are. -/
def c4Catalog : List CatalogBottle :=
  [{ bottle_id := some "b1", name := some "B1", region := some "R1",
     style := some "S1", rating := 10 },
   { bottle_id := some "b2", name := some "B2", region := some "R2",
     style := some "S2", rating := 9 },
   { bottle_id := some "b3", name := some "B3", region := some "R3",
     style := some "S3", rating := 8 },
   { bottle_id := some "b4", name := some "B4", region := some "R1",
     style := some "S2", rating := 7 },
   { bottle_id := some "b5", name := some "B5", region := some "R4",
     style := some "S4", rating := 6 }]

/-- Counterexample to C4: with `count = 4` the source skips `b4` — its
region is among the chosen regions AND its style is among the chosen
styles, tested independently (`region in regions and style in styles`),
not as a pair — and emits `b5` instead; the claim's pair-based rule would
emit `b4`. -/
theorem c4_counterexample :
    (defaultRecommendations c4Catalog 4 false).map (fun r => r.bottle_id) =
      ["b1", "b2", "b3", "b5"] ∧
    (specDefaultRecommendations c4Catalog 4 false).map (fun r => r.bottle_id) =
      ["b1", "b2", "b3", "b4"] ∧
    defaultRecommendations c4Catalog 4 false ≠
      specDefaultRecommendations c4Catalog 4 false := by
  decide

theorem defaultFold_length (count : ℕ) (l : List CatalogBottle)
    (st : DefaultState) (h : st.recs.length ≤ count) :
    ((l.foldl (defaultStepFn count) st).recs).length ≤ count := by
  induction l generalizing st with
  | nil => exact h
  | cons b t ih =>
    show ((t.foldl (defaultStepFn count) (defaultStepFn count st b)).recs).length ≤ count
    refine ih _ ?_
    simp only [defaultStepFn]
    by_cases h1 : st.recs.length ≥ count
    · rw [if_pos h1]; exact h
    · rw [if_neg h1]
      by_cases h2 : b.bottle_id = none ∨ b.name = none
      · rw [if_pos h2]; exact h
      · rw [if_neg h2]
        by_cases h3 : pyStr b.region ∈ st.regions ∧ pyStr b.style ∈ st.styles ∧
            (st.recs.length : ℚ) > (count : ℚ) / 2
        · rw [if_pos h3]; exact h
        · rw [if_neg h3]
          simp only [List.length_append, List.length_cons, List.length_nil]
          omega

theorem mem_mapIdx_ex (f : ℕ → α → β) (l : List α) (b : β)
    (h : b ∈ l.mapIdx f) : ∃ i a, a ∈ l ∧ b = f i a := by
  induction l generalizing f with
  | nil => cases h
  | cons x t ih =>
    rw [List.mapIdx_cons] at h
    rcases List.mem_cons.mp h with he | ht
    · exact ⟨0, x, List.mem_cons_self _ _, he⟩
    · obtain ⟨i, a, ha, hb⟩ := ih _ ht
      exact ⟨i + 1, a, List.mem_cons_of_mem _ ha, hb⟩

/-- C4 amended: the fallback walks the `3*count` highest-rated bottles in
descending rating order and greedily emits up to `count` of them, skipping
a bottle exactly when its region is already among the chosen REGIONS and
its style is already among the chosen STYLES — two independent set tests,
not a joint (region, style) pair test — and more than `count/2` (true
division) slots are filled; every emitted record has score exactly 0.95,
comes from a top-`3*count` bottle, and bottles with a null `bottle_id` or
`name` are skipped. -/
theorem c4_fallback_properties (catalog : List CatalogBottle) (count : ℕ)
    (includeReasoning : Bool) (rec : Recommendation)
    (hrec : rec ∈ defaultRecommendations catalog count includeReasoning) :
    rec.score = 19/20 ∧
    (∃ b, b ∈ (sortBy (fun a b2 => decide (b2.rating ≤ a.rating)) catalog).take (3 * count) ∧
      b.bottle_id = some rec.bottle_id ∧ b.name ≠ none) ∧
    (defaultRecommendations catalog count includeReasoning).length ≤ count := by
  have hinv : ∀ r ∈ ((((sortBy (fun a b2 => decide (b2.rating ≤ a.rating))
      catalog).take (3 * count)).foldl (defaultStepFn count)
        ⟨[], [], []⟩).recs),
      r.score = 19/20 ∧
      ∃ b, b ∈ (sortBy (fun a b2 => decide (b2.rating ≤ a.rating)) catalog).take (3 * count) ∧
        b.bottle_id = some r.bottle_id ∧ b.name ≠ none := by
    refine defaultFold_inv count _ _ _ (by intro r hr; cases hr) ?_
    intro b hb hid hname region style
    refine ⟨rfl, b, hb, ?_, hname⟩
    cases hbid : b.bottle_id with
    | none => exact absurd hbid hid
    | some s => simp [mkDefaultRec, hbid, pyStr]
  have hlen : ((((sortBy (fun a b2 => decide (b2.rating ≤ a.rating))
      catalog).take (3 * count)).foldl (defaultStepFn count)
        ⟨[], [], []⟩).recs).length ≤ count :=
    defaultFold_length count _ _ (by simp)
  cases includeReasoning with
  | false =>
    simp only [defaultRecommendations, Bool.false_eq_true, if_false] at hrec ⊢
    exact ⟨(hinv rec hrec).1, (hinv rec hrec).2, hlen⟩
  | true =>
    simp only [defaultRecommendations, if_true] at hrec ⊢
    obtain ⟨i, r0, hr0, heq⟩ := mem_mapIdx_ex _ _ _ hrec
    have hsc : rec.score = r0.score := by
      rw [heq]; simp [defaultReasonFor]
    have hid : rec.bottle_id = r0.bottle_id := by
      rw [heq]; simp [defaultReasonFor]
    refine ⟨hsc ▸ (hinv r0 hr0).1, ?_, ?_⟩
    · obtain ⟨b, hb, hbid, hbn⟩ := (hinv r0 hr0).2
      exact ⟨b, hb, hid ▸ hbid, hbn⟩
    · rw [List.length_mapIdx]
      exact hlen

/-- The first bottle of `c4Catalog`. -/
def c4B1 : CatalogBottle :=
  { bottle_id := some "b1", name := some "B1", region := some "R1",
    style := some "S1", rating := 10 }

/-- Witness for C4 amended: the top fallback record for the concrete
catalog has score exactly 0.95. -/
theorem c4_fallback_properties_witness :
    (mkDefaultRec c4B1 "R1" "S1").score = 19/20 :=
  (c4_fallback_properties c4Catalog 4 false (mkDefaultRec c4B1 "R1" "S1")
    (by decide)).1

-- ### Claim C2

theorem mem_of_getElem_opt (l : List α) (i : ℕ) (a : α) (h : l[i]? = some a) :
    a ∈ l := by
  induction l generalizing i with
  | nil => cases h
  | cons x t ih =>
    cases i with
    | zero =>
      have : x = a := by simpa using h
      rw [← this]
      exact List.mem_cons_self _ _
    | succ n =>
      have : t[n]? = some a := by simpa using h
      exact List.mem_cons_of_mem _ (ih n this)

/-- C2 amended (personalized path): when the owned collection and the
candidate pool are both non-empty, no returned recommendation's
`bottle_id` equals the `bottle_id` of any bottle in the user's owned
collection or wishlist, for every catalog, count, reasoning flag and
similarity function. -/
theorem c2_personalized_path_excludes_owned_and_wishlist
    (catalog : List CatalogBottle) (bar : UserBar) (count : ℕ)
    (includeReasoning : Bool) (cosSim : DF → DF → List ℚ)
    (recs : List Recommendation) (rec : Recommendation) (b : RawBottle)
    (hb : bar.bottles ≠ [])
    (hc : candidatesOf catalog bar ≠ [])
    (hok : getRecommendationsCore catalog bar count includeReasoning cosSim =
      Except.ok recs)
    (hrec : rec ∈ recs)
    (hmem : b ∈ bar.bottles ++ bar.wishlist) :
    b.bottle_id ≠ some rec.bottle_id := by
  have h1 : ¬(bar.bottles.isEmpty = true) := by
    simpa [List.isEmpty_iff] using hb
  have h2 : ¬((candidatesOf catalog bar).isEmpty = true) := by
    simpa [List.isEmpty_iff] using hc
  simp only [getRecommendationsCore] at hok
  rw [if_neg h1, if_neg h2] at hok
  cases hcalc : calculateRecommendations catalog (processBottles bar.bottles)
      (processBottles ((candidatesOf catalog bar).map catalogToRaw))
      (analyzeCollection bar.bottles) count cosSim with
  | error e =>
    rw [hcalc] at hok
    simp [Except.map] at hok
  | ok recs0 =>
    rw [hcalc] at hok
    simp only [Except.map] at hok
    have hex : ∃ rec0 ∈ recs0, rec.bottle_id = rec0.bottle_id := by
      cases includeReasoning with
      | false =>
        rw [if_neg (by simp)] at hok
        exact ⟨rec, (Except.ok.inj hok) ▸ hrec, rfl⟩
      | true =>
        rw [if_pos rfl] at hok
        have : rec ∈ addReasoning recs0 (analyzeCollection bar.bottles) := by
          rw [Except.ok.inj hok]
          exact hrec
        rcases List.mem_map.mp this with ⟨rec0, hr0, heq⟩
        exact ⟨rec0, hr0, by rw [← heq]⟩
    obtain ⟨rec0, hr0, hbid⟩ := hex
    obtain ⟨scores, idxs, hb0⟩ := calc_ok_inv _ _ _ _ _ _ _ hcalc
    rw [hb0] at hr0
    obtain ⟨ids, idx, s, bcat, hids, hgets, hfind, hrec_eq⟩ :=
      mem_buildRecs _ _ _ _ rec0 hr0
    have hrecid : rec0.bottle_id = s := by rw [hrec_eq]; rfl
    -- recover the candidate id list from the selected candidate matrix
    rw [DF.getCol_selectCols] at hids
    have hids2 : DF.getCol (processBottles
        ((candidatesOf catalog bar).map catalogToRaw)) "bottle_id" = some ids := by
      by_cases hmemc : "bottle_id" ∈ commonColumns (processBottles bar.bottles)
          (processBottles ((candidatesOf catalog bar).map catalogToRaw))
      · rw [if_pos hmemc] at hids
        exact hids
      · rw [if_neg hmemc] at hids
        cases hids
    rw [processBottles_bottle_id, getCol_initDF_bottle_id] at hids2
    by_cases hpres : (((candidatesOf catalog bar).map catalogToRaw).any
        (fun b2 => decide (cellOfStr b2.bottle_id ≠ Cell.null))) = true
    · rw [if_pos hpres] at hids2
      have hids3 : ids = ((candidatesOf catalog bar).map catalogToRaw).map
          (fun b2 => cellOfStr b2.bottle_id) := (Option.some.inj hids2).symm
      rw [hids3] at hgets
      rw [List.getElem?_map] at hgets
      cases hraw : ((candidatesOf catalog bar).map catalogToRaw)[idx]? with
      | none => rw [hraw] at hgets; cases hgets
      | some craw =>
        rw [hraw] at hgets
        have hcellid : cellOfStr craw.bottle_id = Cell.str s := by
          simpa using hgets
        have hcraws : craw.bottle_id = some s := by
          cases hcid : craw.bottle_id with
          | none => rw [hcid] at hcellid; cases hcellid
          | some s2 =>
            rw [hcid] at hcellid
            simp only [cellOfStr, Cell.str.injEq] at hcellid
            rw [hcellid]
        rw [List.getElem?_map] at hraw
        cases hcb : (candidatesOf catalog bar)[idx]? with
        | none => rw [hcb] at hraw; cases hraw
        | some cb =>
          rw [hcb] at hraw
          have hcbraw : catalogToRaw cb = craw := by simpa using hraw
          have hcbid : cb.bottle_id = some s := by
            rw [← hcraws, ← hcbraw]
            rfl
          have hcbmem : cb ∈ candidatesOf catalog bar :=
            mem_of_getElem_opt _ _ _ hcb
          have hnotex : cb.bottle_id ∉ ownedIds bar ++ wishlistIds bar := by
            have := (List.mem_filter.mp hcbmem).2
            simpa using this
          intro heq
          apply hnotex
          rw [hcbid, ← hrecid, ← hbid, ← heq]
          rcases List.mem_append.mp hmem with hmo | hmw
          · exact List.mem_append.mpr (Or.inl (List.mem_map.mpr ⟨b, hmo, rfl⟩))
          · exact List.mem_append.mpr (Or.inr (List.mem_map.mpr ⟨b, hmw, rfl⟩))
    · rw [if_neg hpres] at hids2
      cases hids2

/-- A catalog whose only (and top-rated) bottle is on the wishlist. -/
def c2Catalog : List CatalogBottle :=
  [{ bottle_id := some "w1", name := some "W1", region := some "R",
     style := some "S", rating := 9 }]

def c2WishApi : ApiBottle := { bottle_id := some "w1", name := some "W1" }

/-- Owned empty, wishlist holds the catalog's bottle. -/
def c2WishBar : UserBar := ⟨[], [normalizeBottle c2WishApi]⟩

/-- The record the fallback emits for `c2Catalog`. -/
def c2WishRec : Recommendation :=
  { bottle_id := "w1", name := "W1", brand := "None", region := "R",
    style := "S", price := 0, age := some 0, score := 19/20, abv := some 0,
    flavor_profile := [], description := "",
    reason := some "A highly-rated R whisky perfect for starting your collection" }

/-- Counterexample to C2: with owned empty and a non-empty wishlist the
call takes the new-user fallback, which draws from the FULL catalog with
no exclusion — the returned recommendation's `bottle_id` equals the
wishlisted bottle's `bottle_id`. -/
theorem c2_counterexample :
    getRecommendationsCore c2Catalog c2WishBar 1 true (fun _ _ => []) =
      Except.ok [c2WishRec] ∧
    (normalizeBottle c2WishApi) ∈ c2WishBar.wishlist ∧
    (normalizeBottle c2WishApi).bottle_id = some c2WishRec.bottle_id := by
  decide

def c2OwnedApi : ApiBottle :=
  { bottle_id := some "u1", name := some "U1", region := some "RO",
    style := some "SO", price := some 50, age := some 10, abv := some 40,
    rating := some 4, flavor_profile := some [("smoky", 1)] }

def c2PersCatalog : List CatalogBottle :=
  [{ bottle_id := some "u1", name := some "U1", region := some "RO",
     style := some "SO", price := 50, age := 10, abv := 40, rating := 4,
     flavor_profile := [("smoky", 1)] },
   { bottle_id := some "c1", name := some "C1", region := some "RC",
     style := some "SC", price := 55, age := 12, abv := 43, rating := 5,
     flavor_profile := [("smoky", 8/10)] }]

def c2PersBar : UserBar := ⟨[normalizeBottle c2OwnedApi], []⟩

/-- The record the personalized path emits for `c2PersCatalog` under the
constant similarity `[1]` (the in-band price 55 is still penalised to 0.7
because the scaled price 0 is compared against the raw band). -/
def c2PersRec : Recommendation :=
  { bottle_id := "c1", name := "C1", brand := "None", region := "RC",
    style := "SC", price := 55, age := some 12, score := 7/10,
    abv := some 43, flavor_profile := [("smoky", 4/5)], description := "",
    reason := some "" }

/-- Witness for C2 amended: on the concrete personalized run the owned
bottle `u1` is not the returned recommendation `c1`. -/
theorem c2_personalized_exclusion_witness :
    (normalizeBottle c2OwnedApi).bottle_id ≠ some c2PersRec.bottle_id :=
  c2_personalized_path_excludes_owned_and_wishlist c2PersCatalog c2PersBar 1
    false (fun _ _ => [1]) [c2PersRec] c2PersRec (normalizeBottle c2OwnedApi)
    (by decide) (by decide) (by decide) (by decide) (by decide)
